import Mathlib

/-!
# peinfo: Windows executable header info extractor

A shallow embedding of `src/peinfo.c` and theorems about it.

Conventions of the embedding

* A file and every C object that is filled by `fread` is a list of bytes.  A packed
  struct is kept as its byte buffer; each field is an accessor that decodes the
  little-endian value at the field's offset (`#pragma pack(push,1)`).
* `fread` copies the bytes that are available over the start of the destination and
  leaves the rest of the destination as it was; its return value is ignored by the
  program, and so it is here.
* `g_info` is a global object: it starts zeroed.  Stack objects (`peo`) and `malloc`
  blocks start with indeterminate bytes, which are parameters of the model.
* The target is LP64 (the program prints `uint64_t` with `%lx`): `int` is 32 bits,
  `long`, `size_t` and pointers are 64 bits.
* An access outside the block a pointer was derived from is undefined behaviour:
  outcome `fault`.  Loops without a bound of their own run on fuel: outcome `more`.
-/

namespace PEInfo

abbrev Byte := Fin 256

/-! ## Bytes, little-endian values, machine integers -/

/-- Little-endian value of a byte string. -/
def le : List Byte → Nat
  | [] => 0
  | b :: bs => b.val + 256 * le bs

/-- Little-endian value of the `w` bytes at offset `o` of `m`; bytes past the end of
`m` count as zero. -/
def rd (m : List Byte) (o w : Nat) : Nat := le ((m.drop o).take w)

/-- The `w` bytes of the little-endian representation of `x`. -/
def bytesLE : Nat → Nat → List Byte
  | 0, _ => []
  | w + 1, x => Fin.ofNat x :: bytesLE w (x / 256)

/-- A block of `n` zero bytes. -/
def zeros (n : Nat) : List Byte := List.replicate n 0

/-- A block of `n` bytes with indeterminate contents: `junk` decides them. -/
def indet (n : Nat) (junk : List Byte) : List Byte := (junk ++ zeros n).take n

/-- Conversion of an unsigned 32-bit value to `int`. -/
def toInt32 (x : Nat) : Int := if x % 2 ^ 32 < 2 ^ 31 then (x % 2 ^ 32 : Nat) else (x % 2 ^ 32 : Nat) - 2 ^ 32

/-- Conversion of an unsigned 16-bit value to `short`. -/
def toInt16 (x : Nat) : Int := if x % 2 ^ 16 < 2 ^ 15 then (x % 2 ^ 16 : Nat) else (x % 2 ^ 16 : Nat) - 2 ^ 16

/-- Conversion of an unsigned 64-bit value to `int64_t`. -/
def toInt64 (x : Nat) : Int := if x % 2 ^ 64 < 2 ^ 63 then (x % 2 ^ 64 : Nat) else (x % 2 ^ 64 : Nat) - 2 ^ 64

/-- Conversion of a signed value to `uint64_t` (reduction modulo 2^64). -/
def toU64 (x : Int) : Nat := (x % 2 ^ 64).toNat

/-- Conversion of a signed value to `uint32_t` (reduction modulo 2^32). -/
def toU32 (x : Int) : Nat := (x % 2 ^ 32).toNat

/-! ## The stream -/

/-- `fread(buf, 1, n, f)` with the stream at `pos`: the destination after the call and
the new stream position. -/
def fread (file : List Byte) (pos n : Nat) (buf : List Byte) : List Byte × Nat :=
  let got := (file.drop pos).take n
  (got ++ buf.drop got.length, pos + got.length)

/-! ## Struct layouts -/

abbrev head1_t := List Byte
abbrev head2_32_t := List Byte
abbrev head2_64_t := List Byte
abbrev dirhead_t := List Byte
abbrev peobj_t := List Byte
abbrev idirent_t := List Byte
abbrev edirent_t := List Byte

def sizeof_head1_t : Nat := 48
def sizeof_head2_32_t : Nat := 72
def sizeof_head2_64_t : Nat := 88
def sizeof_dirhead_t : Nat := 128
def sizeof_peobj_t : Nat := 40
def sizeof_idirent_t : Nat := 20
def sizeof_edirent_t : Nat := 40

def head1_t.Magic (h : head1_t) : Nat := rd h 0 4
def head1_t.CPUType (h : head1_t) : Nat := rd h 4 2
def head1_t.Sections (h : head1_t) : Nat := rd h 6 2
def head1_t.TimeDataStamp (h : head1_t) : Nat := rd h 8 4
def head1_t.SymbolTblOfs (h : head1_t) : Nat := rd h 12 4
def head1_t.Symbols (h : head1_t) : Nat := rd h 16 4
def head1_t.NTHdrSize (h : head1_t) : Nat := rd h 20 2
def head1_t.Flags (h : head1_t) : Nat := rd h 22 2
def head1_t.Magic2 (h : head1_t) : Nat := rd h 24 2
def head1_t.LMajor (h : head1_t) : Nat := rd h 26 1
def head1_t.LMinor (h : head1_t) : Nat := rd h 27 1
def head1_t.CodeSize (h : head1_t) : Nat := rd h 28 4
def head1_t.DataSize (h : head1_t) : Nat := rd h 32 4
def head1_t.BssSize (h : head1_t) : Nat := rd h 36 4
def head1_t.EntryPointRVA (h : head1_t) : Nat := rd h 40 4
def head1_t.BaseOfCode (h : head1_t) : Nat := rd h 44 4

/-- Offset of `Magic2` inside `head1_t`:
`(void*)&g_info.peh.Magic2 - (void*)&g_info.peh`. -/
def offsetof_Magic2 : Nat := 24

def head2_32_t.BaseOfData (h : head2_32_t) : Nat := rd h 0 4
def head2_32_t.ImageBase (h : head2_32_t) : Nat := rd h 4 4
def head2_32_t.SectionAlign (h : head2_32_t) : Nat := rd h 8 4
def head2_32_t.FileAlign (h : head2_32_t) : Nat := rd h 12 4
def head2_32_t.OSMajor (h : head2_32_t) : Nat := rd h 16 2
def head2_32_t.OSMinor (h : head2_32_t) : Nat := rd h 18 2
def head2_32_t.ImageMajor (h : head2_32_t) : Nat := rd h 20 2
def head2_32_t.ImageMinor (h : head2_32_t) : Nat := rd h 22 2
def head2_32_t.SubSystMajor (h : head2_32_t) : Nat := rd h 24 2
def head2_32_t.SubSystMinor (h : head2_32_t) : Nat := rd h 26 2
def head2_32_t.Win32Version (h : head2_32_t) : Nat := rd h 28 4
def head2_32_t.ImageSize (h : head2_32_t) : Nat := rd h 32 4
def head2_32_t.HeaderSize (h : head2_32_t) : Nat := rd h 36 4
def head2_32_t.FileChecksum (h : head2_32_t) : Nat := rd h 40 4
def head2_32_t.SubSystem (h : head2_32_t) : Nat := rd h 44 2
def head2_32_t.DLLFlags (h : head2_32_t) : Nat := rd h 46 2
def head2_32_t.StackReserveSize (h : head2_32_t) : Nat := rd h 48 4
def head2_32_t.StackCommitSize (h : head2_32_t) : Nat := rd h 52 4
def head2_32_t.HeapReserveSize (h : head2_32_t) : Nat := rd h 56 4
def head2_32_t.HeapCommitSize (h : head2_32_t) : Nat := rd h 60 4
def head2_32_t.LoaderFlags (h : head2_32_t) : Nat := rd h 64 4
def head2_32_t.NumberOfRvaAndSizes (h : head2_32_t) : Nat := rd h 68 4

def head2_64_t.ImageBase (h : head2_64_t) : Nat := rd h 0 8
def head2_64_t.SectionAlign (h : head2_64_t) : Nat := rd h 8 4
def head2_64_t.FileAlign (h : head2_64_t) : Nat := rd h 12 4
def head2_64_t.OSMajor (h : head2_64_t) : Nat := rd h 16 2
def head2_64_t.OSMinor (h : head2_64_t) : Nat := rd h 18 2
def head2_64_t.ImageMajor (h : head2_64_t) : Nat := rd h 20 2
def head2_64_t.ImageMinor (h : head2_64_t) : Nat := rd h 22 2
def head2_64_t.SubSystMajor (h : head2_64_t) : Nat := rd h 24 2
def head2_64_t.SubSystMinor (h : head2_64_t) : Nat := rd h 26 2
def head2_64_t.Win32Version (h : head2_64_t) : Nat := rd h 28 4
def head2_64_t.ImageSize (h : head2_64_t) : Nat := rd h 32 4
def head2_64_t.HeaderSize (h : head2_64_t) : Nat := rd h 36 4
def head2_64_t.FileChecksum (h : head2_64_t) : Nat := rd h 40 4
def head2_64_t.SubSystem (h : head2_64_t) : Nat := rd h 44 2
def head2_64_t.DLLFlags (h : head2_64_t) : Nat := rd h 46 2
def head2_64_t.StackReserveSize (h : head2_64_t) : Nat := rd h 48 8
def head2_64_t.StackCommitSize (h : head2_64_t) : Nat := rd h 56 8
def head2_64_t.HeapReserveSize (h : head2_64_t) : Nat := rd h 64 8
def head2_64_t.HeapCommitSize (h : head2_64_t) : Nat := rd h 72 8
def head2_64_t.LoaderFlags (h : head2_64_t) : Nat := rd h 80 4
def head2_64_t.NumberOfRvaAndSizes (h : head2_64_t) : Nat := rd h 84 4

/-- One `direntry_t` of `dirhead_t`: the entry with index `k`. -/
structure direntry_t where
  RVA : Nat
  size : Nat
  deriving DecidableEq, Repr

def dirhead_t.entry (d : dirhead_t) (k : Nat) : direntry_t := ⟨rd d (8 * k) 4, rd d (8 * k + 4) 4⟩
def dirhead_t.ExportTable (d : dirhead_t) : direntry_t := d.entry 0
def dirhead_t.ImportTable (d : dirhead_t) : direntry_t := d.entry 1
def dirhead_t.ResourceTable (d : dirhead_t) : direntry_t := d.entry 2
def dirhead_t.ExceptionTable (d : dirhead_t) : direntry_t := d.entry 3
def dirhead_t.CertTable (d : dirhead_t) : direntry_t := d.entry 4
def dirhead_t.RelocTable (d : dirhead_t) : direntry_t := d.entry 5
def dirhead_t.Debug (d : dirhead_t) : direntry_t := d.entry 6
def dirhead_t.Arch (d : dirhead_t) : direntry_t := d.entry 7
def dirhead_t.GlobalPtr (d : dirhead_t) : direntry_t := d.entry 8
def dirhead_t.TLSTable (d : dirhead_t) : direntry_t := d.entry 9
def dirhead_t.LoadConfig (d : dirhead_t) : direntry_t := d.entry 10
def dirhead_t.BoundImport (d : dirhead_t) : direntry_t := d.entry 11
def dirhead_t.IAT (d : dirhead_t) : direntry_t := d.entry 12
def dirhead_t.DelayImportDesc (d : dirhead_t) : direntry_t := d.entry 13
def dirhead_t.CLRRuntimeHeader (d : dirhead_t) : direntry_t := d.entry 14
def dirhead_t.Res1 (d : dirhead_t) : direntry_t := d.entry 15

/-- The 8 bytes of `Name`. -/
def peobj_t.Name (p : peobj_t) : List Byte := p.take 8
def peobj_t.VirtualSize (p : peobj_t) : Nat := rd p 8 4
def peobj_t.RVA (p : peobj_t) : Nat := rd p 12 4
def peobj_t.PhysicalSize (p : peobj_t) : Nat := rd p 16 4
def peobj_t.PhysicalOffset (p : peobj_t) : Nat := rd p 20 4
def peobj_t.RelocPtr (p : peobj_t) : Nat := rd p 24 4
def peobj_t.LineNumbPtr (p : peobj_t) : Nat := rd p 28 4
def peobj_t.NReloc (p : peobj_t) : Nat := rd p 32 2
def peobj_t.NLineNumb (p : peobj_t) : Nat := rd p 34 2
def peobj_t.Flags (p : peobj_t) : Nat := rd p 36 4

def idirent_t.ImpFlags (p : idirent_t) : Nat := rd p 0 4
def idirent_t.DateTime (p : idirent_t) : Nat := rd p 4 4
def idirent_t.MajVer (p : idirent_t) : Nat := rd p 8 2
def idirent_t.MinVer (p : idirent_t) : Nat := rd p 10 2
def idirent_t.NameRVA (p : idirent_t) : Nat := rd p 12 4
def idirent_t.ImpTabRVA (p : idirent_t) : Nat := rd p 16 4

def edirent_t.Flags (p : edirent_t) : Nat := rd p 0 4
def edirent_t.DateTime (p : edirent_t) : Nat := rd p 4 4
def edirent_t.MajVer (p : edirent_t) : Nat := rd p 8 2
def edirent_t.MinVer (p : edirent_t) : Nat := rd p 10 2
def edirent_t.NameRVA (p : edirent_t) : Nat := rd p 12 4
def edirent_t.OrdinalBase (p : edirent_t) : Nat := rd p 16 4
def edirent_t.NumEATEntries (p : edirent_t) : Nat := rd p 20 4
def edirent_t.NumNamePtrs (p : edirent_t) : Nat := rd p 24 4
def edirent_t.AddressTableRVA (p : edirent_t) : Nat := rd p 28 4
def edirent_t.NamePtrTableRVA (p : edirent_t) : Nat := rd p 32 4
def edirent_t.OrdinalTableRVA (p : edirent_t) : Nat := rd p 36 4

/-! ## The global state -/

/-- The `imp` and `exp` members of `g_info`. -/
structure loc_t where
  ofs : Nat
  siz : Nat
  RVA : Nat
  deriving DecidableEq, Repr

/-- The global `g_info`.  `f` is the stream: the bytes of the file and the position. -/
structure g_info_t where
  f : List Byte
  pos : Nat
  peofs : Nat
  peh : head1_t
  bit64 : Bool
  pe32 : head2_32_t
  pe64 : head2_64_t
  base : Nat
  dir : dirhead_t
  imp : loc_t
  exp : loc_t
  deriving DecidableEq, Repr

/-- The state after `fopen`: a zeroed global, the stream at the start of the file. -/
def g_info_init (file : List Byte) : g_info_t :=
  { f := file, pos := 0, peofs := 0, peh := zeros sizeof_head1_t, bit64 := false,
    pe32 := zeros sizeof_head2_32_t, pe64 := zeros sizeof_head2_64_t, base := 0,
    dir := zeros sizeof_dirhead_t, imp := ⟨0, 0, 0⟩, exp := ⟨0, 0, 0⟩ }

/-- How a run of a function ends. -/
inductive Outcome (α : Type) where
  /-- the function returns -/
  | ok (a : α)
  /-- `kerror("bad magic(%x)", Magic)`: message on stderr, `exit(1)` -/
  | kerror (magic : Nat)
  /-- access outside the block a pointer was derived from, or signed overflow -/
  | fault
  /-- the fuel of the model ran out -/
  | more
  deriving DecidableEq, Repr

/-- Sequencing: the first outcome that is not `ok` ends the run. -/
def Outcome.bind {α β : Type} : Outcome α → (α → Outcome β) → Outcome β
  | .ok a, k => k a
  | .kerror m, _ => .kerror m
  | .fault, _ => .fault
  | .more, _ => .more

/-- A memory access that is not inside its block is a fault. -/
def Outcome.ofOption {α : Type} : Option α → Outcome α
  | some a => .ok a
  | none => .fault

/-! ## Memory blocks -/

/-- The `n` bytes at byte offset `off` of block `d`, when they are inside the block. -/
def peek (d : List Byte) (off : Int) (n : Nat) : Option (List Byte) :=
  if 0 ≤ off ∧ off + n ≤ d.length then some ((d.drop off.toNat).take n) else none

/-- The little-endian value of the `n` bytes at byte offset `off` of block `d`. -/
def load (d : List Byte) (off : Int) (n : Nat) : Option Nat := (peek d off n).map le

/-- The C string at byte offset `off` of block `d`, as `printf("%s")` reads it: the
bytes before the first NUL, when the start and that NUL are inside the block. -/
def cstr (d : List Byte) (off : Int) : Option (List Byte) :=
  if 0 ≤ off then
    let s := (d.drop off.toNat).takeWhile (fun b => b ≠ 0)
    if off.toNat + s.length < d.length then some s else none
  else none

/-! ## peinfo -/

/-- `dword[3c]` is the PE header offset. -/
def peheadofs : Nat := 0x3c

/-- `'P' | ('E' << 8)`. -/
def pemagic : Nat := 0x50 ||| (0x45 <<< 8)

/-- The state changes of `peinfo`. -/
def peinfo (g : g_info_t) : Outcome g_info_t :=
  -- fseek(g_info.f, peheadofs, SEEK_SET); fread(&g_info.peofs, 4, 1, g_info.f);
  let r0 := fread g.f peheadofs 4 (bytesLE 4 g.peofs)
  let peofs := rd r0.1 0 4
  -- fseek(g_info.f, g_info.peofs, SEEK_SET); fread(&g_info.peh, 1, sizeof(g_info.peh), g_info.f);
  let r1 := fread g.f peofs sizeof_head1_t g.peh
  let peh : head1_t := r1.1
  if peh.Magic ≠ pemagic then .kerror peh.Magic
  else
    let bit64 := if peh.Magic2 = 0x10b then false else if peh.Magic2 = 0x20b then true else false
    if bit64 then
      let r2 := fread g.f r1.2 sizeof_head2_64_t g.pe64
      let pe64 : head2_64_t := r2.1
      let r3 := fread g.f r2.2 sizeof_dirhead_t g.dir
      .ok { g with pos := r3.2, peofs := peofs, peh := peh, bit64 := true, pe64 := pe64,
                   base := pe64.ImageBase, dir := r3.1 }
    else
      let r2 := fread g.f r1.2 sizeof_head2_32_t g.pe32
      let pe32 : head2_32_t := r2.1
      let r3 := fread g.f r2.2 sizeof_dirhead_t g.dir
      .ok { g with pos := r3.2, peofs := peofs, peh := peh, bit64 := false, pe32 := pe32,
                   base := pe32.ImageBase, dir := r3.1 }

/-! ## objscan -/

/-- File offset of section record `cnt`:
`g_info.peh.NTHdrSize + g_info.peofs + ((void*)&g_info.peh.Magic2 - (void*)&g_info.peh) + cnt * sizeof(peo)`.
The first sum is of an `int` and a `uint32_t`, so it is taken modulo 2^32; the other
two summands are 64 bits wide. -/
def secofs (g : g_info_t) (cnt : Nat) : Nat :=
  (g.peh.NTHdrSize + g.peofs) % 2 ^ 32 + offsetof_Magic2 + cnt * sizeof_peobj_t

/-- The test `tmp >= peo.RVA && tmp < (peo.RVA + peo.VirtualSize)` of `objscan`, with
`int tmp`: both comparisons convert `tmp` to `unsigned`, the sum is of two `uint32_t`. -/
def objhit (tmp : Int) (peo : peobj_t) : Bool :=
  decide (peo.RVA ≤ toU32 tmp) && decide (toU32 tmp < (peo.RVA + peo.VirtualSize) % 2 ^ 32)

/-- One pass of the loop body of `objscan` for section `cnt`. -/
def objscan_step (cnt : Nat) (s : g_info_t × peobj_t) : g_info_t × peobj_t :=
  let g := s.1
  let r := fread g.f (secofs g cnt) sizeof_peobj_t s.2
  let peo : peobj_t := r.1
  let g := { g with pos := r.2 }
  let g := if objhit (toInt32 g.dir.ImportTable.RVA) peo
    then { g with imp := ⟨peo.PhysicalOffset, peo.VirtualSize, peo.RVA⟩ } else g
  let g := if objhit (toInt32 g.dir.ExportTable.RVA) peo
    then { g with exp := ⟨peo.PhysicalOffset, peo.VirtualSize, peo.RVA⟩ } else g
  (g, peo)

/-- The loop of `objscan`: `n` more passes, the next one for section `cnt`. -/
def objscan_loop : Nat → Nat → g_info_t × peobj_t → g_info_t × peobj_t
  | 0, _, s => s
  | n + 1, cnt, s => objscan_loop n (cnt + 1) (objscan_step cnt s)

/-- `objscan`; `peo` is the local of that name as it is on entry. -/
def objscan (g : g_info_t) (peo : peobj_t) : g_info_t :=
  let g := { g with imp := { g.imp with ofs := 0 }, exp := { g.exp with ofs := 0 } }
  (objscan_loop g.peh.Sections 0 (g, peo)).1

/-- The local `peo` of `objscan` (and of `objinfo`) before pass `i` of the loop, from
its contents `peo` on entry: each pass reads over what the pass before left. -/
def scan_peo (g : g_info_t) (peo : peobj_t) : Nat → peobj_t
  | 0 => peo
  | i + 1 => (fread g.f (secofs g i) sizeof_peobj_t (scan_peo g peo i)).1

/-- The record of section `i` as the loops of `objscan` and `objinfo` see it. -/
def secrec (g : g_info_t) (peo : peobj_t) (i : Nat) : peobj_t := scan_peo g peo (i + 1)

/-- What `objscan` stores for a section that passes its test. -/
def secloc (p : peobj_t) : loc_t := ⟨p.PhysicalOffset, p.VirtualSize, p.RVA⟩

/-- The location that a scan with overwrite ends with: passes `cnt`, ..., `cnt + n - 1`
in order, each pass that hits stores its location over `l`. -/
def lastloc (hit : Nat → Bool) (loc : Nat → loc_t) : Nat → Nat → loc_t → loc_t
  | 0, _, l => l
  | n + 1, cnt, l => lastloc hit loc n (cnt + 1) (if hit cnt then loc cnt else l)

/-- Containment of an RVA in the range of a section as the specification words it:
`section.RVA <= rva < section.RVA + section.VirtualSize`, the sum being that of the
integers. -/
def spec_contains (rva : Nat) (p : peobj_t) : Bool :=
  decide (p.RVA ≤ rva) && decide (rva < p.RVA + p.VirtualSize)

/-- Section `j` is the last of the `n` sections that passes the test `hit`. -/
def last_hit (hit : Nat → Bool) (n j : Nat) : Prop :=
  j < n ∧ hit j = true ∧ ∀ k, j < k → k < n → hit k = false

/-! ## impinfo -/

/-- One line of the symbol list of an imported module. -/
inductive impsym_t where
  /-- `printf("%08lx: %s")`: the address and the name -/
  | name (addr : Nat) (s : List Byte)
  /-- `printf("%#lx: ???")`: the number -/
  | ordinal (n : Nat)
  deriving DecidableEq, Repr

/-- What `impinfo` prints for one descriptor; `thunks` lists the byte offsets in the
block of the thunk entries that were read, in order. -/
structure impmod_t where
  ImpFlags : Nat
  NameRVA : Nat
  name : List Byte
  ImpTabRVA : Nat
  syms : List impsym_t
  thunks : List Int
  deriving DecidableEq, Repr

/-- Width of a thunk entry: `int64_t` or `int`. -/
def thunk_width (bit64 : Bool) : Nat := if bit64 then 8 else 4

/-- The value of `sym` (an `int64_t`) for the raw thunk entry. -/
def thunk_sym (bit64 : Bool) (raw : Nat) : Int := if bit64 then toInt64 raw else toInt32 raw

/-- The line printed for a non-zero `sym`: `ofs + g_info.base` with the string at
`(char *) d - rva + sym + 2` when `sym > 0`, `sym & 0x7fffffff` otherwise. -/
def impsym (d : List Byte) (rva : Int) (base : Nat) (ofs sym : Int) : Option impsym_t :=
  if 0 < sym then (cstr d (-rva + sym + 2)).map (impsym_t.name (toU64 (ofs + base)))
  else some (impsym_t.ordinal (toU64 sym &&& 0x7fffffff))

/-- The value of `ofs` in pass `i` of the thunk loop: `imp->ImpTabRVA + i * 8` or
`imp->ImpTabRVA + i * 4`, a `uint32_t` sum stored in an `int`. -/
def thunk_ofs (bit64 : Bool) (ImpTabRVA i : Nat) : Int :=
  toInt32 (ImpTabRVA + i * thunk_width bit64)

/-- The value of `sym` in pass `i` of the thunk loop: the entry at `d + ofs - rva`. -/
def thunk_at (bit64 : Bool) (d : List Byte) (rva : Int) (ImpTabRVA i : Nat) : Option Int :=
  (load d (thunk_ofs bit64 ImpTabRVA i - rva) (thunk_width bit64)).map (thunk_sym bit64)

/-- The line printed in pass `i` of the thunk loop when its entry can be read and is
not zero. -/
def thunk_line (bit64 : Bool) (d : List Byte) (rva : Int) (base ImpTabRVA i : Nat) :
    Option impsym_t :=
  (thunk_at bit64 d rva ImpTabRVA i).bind (impsym d rva base (thunk_ofs bit64 ImpTabRVA i))

/-- The loop `for (i = 0;; i++)` of `impinfo` from index `i` on. -/
def thunk_loop (bit64 : Bool) (d : List Byte) (rva : Int) (base ImpTabRVA : Nat) :
    Nat → Nat → Outcome (List impsym_t × List Int)
  | 0, _ => .more
  | fuel + 1, i =>
    -- i * 8, i * 4: a product of two int
    if 2 ^ 31 ≤ i * thunk_width bit64 then .fault
    else
      let ofs : Int := thunk_ofs bit64 ImpTabRVA i
      match thunk_at bit64 d rva ImpTabRVA i with
      | none => .fault
      | some sym =>
        if sym = 0 then .ok ([], [ofs - rva])
        else
          match impsym d rva base ofs sym with
          | none => .fault
          | some line =>
            (thunk_loop bit64 d rva base ImpTabRVA fuel (i + 1)).bind fun r =>
              .ok (line :: r.1, (ofs - rva) :: r.2)

/-- The body of the descriptor loop of `impinfo` for the descriptor at byte offset `p`
of the block, whose `NameRVA` is not zero; `tf` is the fuel of the thunk loop. -/
def imp_entry (bit64 : Bool) (d : List Byte) (rva : Int) (base tf : Nat) (p : Int)
    (NameRVA : Nat) : Outcome impmod_t :=
  (Outcome.ofOption (load d p 4)).bind fun ImpFlags =>
  (Outcome.ofOption (cstr d (NameRVA - rva))).bind fun name =>
  (Outcome.ofOption (load d (p + 16) 4)).bind fun ImpTabRVA =>
  (thunk_loop bit64 d rva base ImpTabRVA tf 0).bind fun r =>
    .ok ⟨ImpFlags, NameRVA, name, ImpTabRVA, r.1, r.2⟩

/-- The loop `for (imp = ...; imp->NameRVA; imp++)` of `impinfo` with `imp` at byte
offset `p` of the block; `tf` is the fuel of each thunk loop. -/
def imp_loop (bit64 : Bool) (d : List Byte) (rva : Int) (base tf : Nat) :
    Nat → Int → Outcome (List impmod_t)
  | 0, _ => .more
  | fuel + 1, p =>
    (Outcome.ofOption (load d (p + 12) 4)).bind fun NameRVA =>
      if NameRVA = 0 then .ok []
      else
        (imp_entry bit64 d rva base tf p NameRVA).bind fun m =>
        (imp_loop bit64 d rva base tf fuel (p + sizeof_idirent_t)).bind fun ms =>
          .ok (m :: ms)

/-- `impinfo(d)` for the block `d`. -/
def impinfo (g : g_info_t) (d : List Byte) (fuel : Nat) : Outcome (List impmod_t) :=
  let rva : Int := toInt32 g.imp.RVA
  imp_loop g.bit64 d rva g.base fuel fuel ((g.dir.ImportTable.RVA : Int) - (g.imp.RVA : Int))

/-! ## expinfo -/

/-- One line of the symbol list of the export table. -/
structure expsym_t where
  addr : Nat
  name : List Byte
  deriving DecidableEq, Repr

/-- What `expinfo` prints: the directory record, the module name, whether the
"unsupported export table" line is printed, the symbol lines; `reads` lists the byte
offsets in the block of the reads from the ordinal, name pointer and address tables. -/
structure expout_t where
  hdr : edirent_t
  name : List Byte
  unsupported : Bool
  syms : List expsym_t
  reads : List Int
  deriving DecidableEq, Repr

/-- The loop `for (i = 0; i < exp->NumEATEntries; i++)` of `expinfo`: `n` more
passes, the next one with index `i`. -/
def exp_loop (d : List Byte) (rva : Int) (base : Nat) (exp : edirent_t) :
    Nat → Nat → Outcome (List expsym_t × List Int)
  | 0, _ => .ok ([], [])
  | n + 1, i =>
    -- i++ of an int
    if 2 ^ 31 ≤ i then .fault
    else
      let po : Int := (exp.OrdinalTableRVA : Int) - rva + 2 * (i : Int)
      let pn : Int := (exp.NamePtrTableRVA : Int) - rva + 4 * (i : Int)
      (Outcome.ofOption (load d po 2)).bind fun rawOrd =>
      let ord : Int := toInt16 rawOrd
      (Outcome.ofOption (load d pn 4)).bind fun rawSym =>
      let sym : Int := toInt32 rawSym
      let pa : Int := (exp.AddressTableRVA : Int) - rva + 4 * ord
      (Outcome.ofOption (load d pa 4)).bind fun rawOfs =>
      let ofs : Int := toInt32 rawOfs
      (Outcome.ofOption (cstr d (-rva + sym))).bind fun s =>
      (exp_loop d rva base exp n (i + 1)).bind fun r =>
        .ok (⟨toU64 (ofs + base), s⟩ :: r.1, po :: pn :: pa :: r.2)

/-- One pass of the loop of `expinfo`, with index `i`: the line it prints and the byte
offsets in the block of its reads from the ordinal, name pointer and address
tables. -/
def exp_line (d : List Byte) (rva : Int) (base : Nat) (exp : edirent_t) (i : Nat) :
    Outcome (expsym_t × List Int) :=
  let po : Int := (exp.OrdinalTableRVA : Int) - rva + 2 * (i : Int)
  let pn : Int := (exp.NamePtrTableRVA : Int) - rva + 4 * (i : Int)
  (Outcome.ofOption (load d po 2)).bind fun rawOrd =>
  let ord : Int := toInt16 rawOrd
  (Outcome.ofOption (load d pn 4)).bind fun rawSym =>
  let sym : Int := toInt32 rawSym
  let pa : Int := (exp.AddressTableRVA : Int) - rva + 4 * ord
  (Outcome.ofOption (load d pa 4)).bind fun rawOfs =>
  let ofs : Int := toInt32 rawOfs
  (Outcome.ofOption (cstr d (-rva + sym))).bind fun s =>
    .ok (⟨toU64 (ofs + base), s⟩, [po, pn, pa])

/-- `expinfo(d)` for the block `d`. -/
def expinfo (g : g_info_t) (d : List Byte) : Outcome expout_t :=
  let rva : Int := toInt32 g.exp.RVA
  (Outcome.ofOption (peek d ((g.dir.ExportTable.RVA : Int) - (g.exp.RVA : Int)) sizeof_edirent_t)).bind
    fun (exp : edirent_t) =>
  (Outcome.ofOption (cstr d ((exp.NameRVA : Int) - rva))).bind fun name =>
    if exp.NumEATEntries ≠ exp.NumNamePtrs then
      .ok ⟨exp, name, true, [], []⟩
    else
      (exp_loop d rva g.base exp exp.NumEATEntries 0).bind fun r =>
        .ok ⟨exp, name, false, r.1, r.2⟩

/-! ## peoinf, objinfo -/

/-- `strncpy(dst, src, n)`: the bytes of `src` before its first NUL, at most `n`, then
NUL bytes up to `n`; the rest of `dst` is kept. -/
def strncpy (dst src : List Byte) (n : Nat) : List Byte :=
  let s := (src.take n).takeWhile (fun b => b ≠ 0)
  s ++ zeros (n - s.length) ++ dst.drop n

/-- What `peoinf` prints for one section record. -/
structure objout_t where
  name : List Byte
  VirtualSize : Nat
  RVA : Nat
  va : Nat
  PhysicalSize : Nat
  PhysicalOffset : Nat
  importHere : Bool
  exportHere : Bool
  deriving DecidableEq, Repr

/-- The test `imp >= p->RVA && imp < (p->RVA + siz)` of `peoinf`, with `int imp` and
`int siz = p->VirtualSize`. -/
def peohit (tmp : Int) (p : peobj_t) : Bool :=
  let siz : Int := toInt32 p.VirtualSize
  decide (p.RVA ≤ toU32 tmp) && decide (toU32 tmp < toU32 ((p.RVA : Int) + siz))

/-- `peoinf(p)`. -/
def peoinf (g : g_info_t) (p : peobj_t) : objout_t :=
  let buf := strncpy (zeros 0x10) p.Name 8
  { name := buf.takeWhile (fun b => b ≠ 0)
    VirtualSize := p.VirtualSize
    RVA := p.RVA
    va := (p.RVA + g.base) % 2 ^ 64
    PhysicalSize := p.PhysicalSize
    PhysicalOffset := p.PhysicalOffset
    importHere := peohit (toInt32 g.dir.ImportTable.RVA) p
    exportHere := peohit (toInt32 g.dir.ExportTable.RVA) p }

/-- The loop of `objinfo`: `n` more passes, the next one for section `cnt`. -/
def objinfo_loop : Nat → Nat → g_info_t × peobj_t → g_info_t × List objout_t
  | 0, _, s => (s.1, [])
  | n + 1, cnt, s =>
    let g := s.1
    let r := fread g.f (secofs g cnt) sizeof_peobj_t s.2
    let g := { g with pos := r.2 }
    let rest := objinfo_loop n (cnt + 1) (g, r.1)
    (rest.1, peoinf g r.1 :: rest.2)

/-- `objinfo`; `peo` is the local of that name as it is on entry. -/
def objinfo (g : g_info_t) (peo : peobj_t) : g_info_t × List objout_t :=
  objinfo_loop g.peh.Sections 0 (g, peo)

/-! ## main -/

/-- The kind of image that `peinfo` prints. -/
inductive imagekind_t where
  | PE32
  | PE32plus
  | unknown
  deriving DecidableEq, Repr

/-- The kind of processor that `peinfo` prints. -/
inductive cpukind_t where
  | x86_64
  | i386
  | unknown
  deriving DecidableEq, Repr

/-- What `peinfo` prints when it returns. -/
structure hdrout_t where
  peofs : Nat
  image : imagekind_t
  cpu : cpukind_t
  ImageBase : Nat
  ImageSize : Nat
  SectionAlign : Nat
  FileAlign : Nat
  EntryPointRVA : Nat
  EntryPointVA : Nat
  ExportTableRVA : Nat
  ExportTableVA : Nat
  TotalExportDataSize : Nat
  ImportTableRVA : Nat
  ImportTableVA : Nat
  TotalImportDataSize : Nat
  deriving DecidableEq, Repr

/-- The lines of `peinfo`, from the state it leaves. -/
def peinfo_out (g : g_info_t) : hdrout_t :=
  let ImageBase := if g.bit64 then g.pe64.ImageBase else g.pe32.ImageBase
  { peofs := g.peofs
    image := if g.peh.Magic2 = 0x10b then .PE32 else if g.peh.Magic2 = 0x20b then .PE32plus
      else .unknown
    cpu := if g.peh.CPUType = 0x8664 then .x86_64 else if g.peh.CPUType = 0x14c then .i386
      else .unknown
    ImageBase := ImageBase
    ImageSize := if g.bit64 then g.pe64.ImageSize else g.pe32.ImageSize
    SectionAlign := if g.bit64 then g.pe64.SectionAlign else g.pe32.SectionAlign
    FileAlign := if g.bit64 then g.pe64.FileAlign else g.pe32.FileAlign
    EntryPointRVA := g.peh.EntryPointRVA
    EntryPointVA := (g.peh.EntryPointRVA + ImageBase) % 2 ^ 64
    ExportTableRVA := g.dir.ExportTable.RVA
    ExportTableVA := (g.dir.ExportTable.RVA + ImageBase) % 2 ^ 64
    TotalExportDataSize := g.dir.ExportTable.size
    ImportTableRVA := g.dir.ImportTable.RVA
    ImportTableVA := (g.dir.ImportTable.RVA + ImageBase) % 2 ^ 64
    TotalImportDataSize := g.dir.ImportTable.size }

def ACT_HELP : Nat := 1
def ACT_EXPORT : Nat := 2
def ACT_IMPORT : Nat := 4
def ACT_OBJECTS : Nat := 8

/-- The parts of the report of a run, in the order they are printed. -/
inductive item_t where
  /-- `help`: the usage line, `exit(1)` -/
  | usage
  | header (h : hdrout_t)
  /-- "can't find export table" -/
  | cantFindExport
  | exportTable (e : expout_t)
  /-- "can't find import table" -/
  | cantFindImport
  | importTable (ms : List impmod_t)
  | objects (os : List objout_t)
  deriving DecidableEq, Repr

/-- The indeterminate contents of the objects of a run that are not initialised: the
local `peo` of `objscan` and of `objinfo`, the `malloc` blocks for the export and
the import table. -/
structure junk_t where
  scan : List Byte
  info : List Byte
  expdata : List Byte
  impdata : List Byte

/-- The block `data` of `main` for a table: `malloc(siz)`, `fseek` to `ofs`,
`fread(data, 1, siz, f)`. -/
def table_data (g : g_info_t) (l : loc_t) (junk : List Byte) : List Byte :=
  (fread g.f l.ofs l.siz (indet l.siz junk)).1

/-- The export part of `main`. -/
def main_export (act : Nat) (g : g_info_t) (junk : junk_t) : Outcome (List item_t) :=
  if act &&& ACT_EXPORT ≠ 0 then
    if g.exp.ofs = 0 then .ok [.cantFindExport]
    else (expinfo g (table_data g g.exp junk.expdata)).bind fun e => .ok [.exportTable e]
  else .ok []

/-- The import part of `main`. -/
def main_import (act : Nat) (g : g_info_t) (junk : junk_t) (fuel : Nat) :
    Outcome (List item_t) :=
  if act &&& ACT_IMPORT ≠ 0 then
    if g.imp.ofs = 0 then .ok [.cantFindImport]
    else (impinfo g (table_data g g.imp junk.impdata) fuel).bind fun ms => .ok [.importTable ms]
  else .ok []

/-- The section listing part of `main`. -/
def main_objects (act : Nat) (g : g_info_t) (junk : junk_t) : List item_t :=
  if act &&& ACT_OBJECTS ≠ 0 then [.objects (objinfo g (indet sizeof_peobj_t junk.info)).2]
  else []

/-- `main` once the options are parsed into `act` and the file is open: the report of
the run on standard output. -/
def main (act : Nat) (file : List Byte) (junk : junk_t) (fuel : Nat) : Outcome (List item_t) :=
  if act &&& ACT_HELP ≠ 0 then .ok [.usage]
  else
    (peinfo (g_info_init file)).bind fun g =>
    let g := if act ≠ 0 then objscan g (indet sizeof_peobj_t junk.scan) else g
    (main_export act g junk).bind fun e =>
    (main_import act g junk fuel).bind fun i =>
      .ok (.header (peinfo_out g) :: (e ++ i ++ main_objects act g junk))

/-- The header that `peinfo` reads: at the offset that it reads first. -/
def peinfo_peh (g : g_info_t) : head1_t :=
  (fread g.f (rd (fread g.f peheadofs 4 (bytesLE 4 g.peofs)).1 0 4) sizeof_head1_t g.peh).1

/-! ## Sample images -/

/-- The block `m` with `bytes` stored at offset `o`. -/
def poke (m : List Byte) (o : Nat) (bytes : List Byte) : List Byte :=
  m.take o ++ bytes ++ m.drop (o + bytes.length)

/-- A 32-bit image of 0x2b0 bytes.  PE header at 0x40, image base 0x400000, import
directory at RVA 0x1010, section table at 0x138 with one record: `.idata` with RVA
0x1000, virtual size 0x100 and file offset 0x1b0.  The section holds one import
descriptor for `k.dll` (name at RVA 0x1050) with the thunks 0x1060 (name `Foo`, hint
7), 0x80000005 and 0 at RVA 0x1040, and the terminating descriptor. -/
def sample32 : List Byte :=
  let m := zeros 0x2b0
  let m := poke m 0x3c [0x40, 0, 0, 0]
  let m := poke m 0x40 [0x50, 0x45, 0, 0, 0x4c, 0x01, 1, 0]
  let m := poke m 0x54 [0xe0, 0, 0, 0, 0x0b, 0x01]
  let m := poke m 0x74 [0, 0, 0x40, 0]
  let m := poke m 0xc0 [0x10, 0x10, 0, 0, 0x28, 0, 0, 0]
  let m := poke m 0x138 [0x2e, 0x69, 0x64, 0x61, 0x74, 0x61, 0, 0]
  let m := poke m 0x140 [0, 0x01, 0, 0, 0, 0x10, 0, 0, 0, 0x01, 0, 0, 0xb0, 0x01, 0, 0]
  let m := poke m 0x1c0 [0x40, 0x10, 0, 0, 0, 0, 0, 0, 0, 0, 0, 0, 0x50, 0x10, 0, 0,
    0x40, 0x10, 0, 0]
  let m := poke m 0x1f0 [0x60, 0x10, 0, 0, 0x05, 0, 0, 0x80, 0, 0, 0, 0]
  let m := poke m 0x200 [0x6b, 0x2e, 0x64, 0x6c, 0x6c, 0]
  poke m 0x210 [0x07, 0, 0x46, 0x6f, 0x6f, 0]

/-- The image `sample32` with three section records: the second, `.two`, has RVA
0x800, virtual size 0x1000 and file offset 0x1b0, and so overlaps `.idata`; the third
has RVA 0x3000 and virtual size 0x100. -/
def sample_overlap : List Byte :=
  let m := poke sample32 0x46 [3]
  let m := poke m 0x160 [0x2e, 0x74, 0x77, 0x6f, 0, 0, 0, 0]
  let m := poke m 0x168 [0, 0x10, 0, 0, 0, 0x08, 0, 0, 0, 0x10, 0, 0, 0xb0, 0x01, 0, 0]
  poke m 0x190 [0, 0x01, 0, 0, 0, 0x30, 0, 0, 0, 0x01, 0, 0, 0xb0, 0x02, 0, 0]

/-- The image `sample32` with the section moved to RVA 0xFFFFF000 with virtual size
0x2000, and the import directory at RVA 0xFFFFF800. -/
def sample_wrap : List Byte :=
  let m := poke sample32 0xc0 [0, 0xf8, 0xff, 0xff]
  poke m 0x140 [0, 0x20, 0, 0, 0, 0xf0, 0xff, 0xff]

/-- The image `sample32` with the import directory at RVA 0xFFFFF010 and two section
records that both begin at RVA 0xFFFFF000: `.idata` with virtual size 0x100 and file
offset 0x1b0, then `.two` with virtual size 0x2000 and file offset 0x200. -/
def sample_wrap_last : List Byte :=
  let m := poke sample32 0x46 [2]
  let m := poke m 0xc0 [0x10, 0xf0, 0xff, 0xff]
  let m := poke m 0x140 [0, 0x01, 0, 0, 0, 0xf0, 0xff, 0xff]
  let m := poke m 0x160 [0x2e, 0x74, 0x77, 0x6f, 0, 0, 0, 0]
  poke m 0x168 [0, 0x20, 0, 0, 0, 0xf0, 0xff, 0xff, 0, 0x01, 0, 0, 0, 0x02, 0, 0]

/-- The value of an outcome that is `ok`, and `dflt` for any other outcome. -/
def Outcome.getD {α : Type} (o : Outcome α) (dflt : α) : α :=
  match o with
  | .ok a => a
  | _ => dflt

/-- The state that `peinfo` leaves for a file (the initial state if it does not
return). -/
def peinfo_of (file : List Byte) : g_info_t :=
  (peinfo (g_info_init file)).getD (g_info_init file)

/-- The state that `peinfo` leaves for `sample32`. -/
def sample32_g : g_info_t := peinfo_of sample32

/-- The state that `objscan` leaves for `sample32`. -/
def sample32_s : g_info_t := objscan sample32_g (zeros 40)

/-- The block that `main` reads for the import table of `sample32`. -/
def sample32_imp : List Byte := table_data sample32_s sample32_s.imp []

/-- The module that `sample32` imports from: `k.dll`, with `Foo` by name and 5 by
number. -/
def sample32_mod : impmod_t :=
  { ImpFlags := 0x1040, NameRVA := 0x1050, name := [0x6b, 0x2e, 0x64, 0x6c, 0x6c],
    ImpTabRVA := 0x1040,
    syms := [.name 0x401040 [0x46, 0x6f, 0x6f], .ordinal 5],
    thunks := [0x40, 0x44, 0x48] }

/-- The image `sample32` with an export directory at RVA 0x1080 (file offset 0x230):
module name at RVA 0x1050, `OrdinalBase` 1, `NumEATEntries` 5, `NumNamePtrs` 3, address
table at RVA 0x10b0, name pointer table at RVA 0x10d0, ordinal table at RVA 0x10e0. -/
def sample_export : List Byte :=
  let m := poke sample32 0xb8 [0x80, 0x10, 0, 0, 0x28, 0, 0, 0]
  poke m 0x230 [0, 0, 0, 0, 0, 0, 0, 0, 0, 0, 0, 0, 0x50, 0x10, 0, 0, 1, 0, 0, 0,
    5, 0, 0, 0, 3, 0, 0, 0, 0xb0, 0x10, 0, 0, 0xd0, 0x10, 0, 0, 0xe0, 0x10, 0, 0]

/-- The state that `objscan` leaves for `sample_export`. -/
def sample_export_s : g_info_t := objscan (peinfo_of sample_export) (zeros 40)

/-- The block that `main` reads for the export table of `sample_export`. -/
def sample_export_exp : List Byte := table_data sample_export_s sample_export_s.exp []

/-- A 64-bit image of 0x2b0 bytes.  PE header at 0x40, image base 0x140000000, import
directory at RVA 0x1010, section table at 0x148 with one record: `.idata` with RVA
0x1000, virtual size 0x100 and file offset 0x1b0.  The section holds one import
descriptor for `k.dll` with the 8-byte thunks 0x1060 (name `Foo`),
0x8000000100000005 and 0 at RVA 0x1070 (file offset 0x220), and the terminating
descriptor. -/
def sample64 : List Byte :=
  let m := zeros 0x2b0
  let m := poke m 0x3c [0x40, 0, 0, 0]
  let m := poke m 0x40 [0x50, 0x45, 0, 0, 0x64, 0x86, 1, 0]
  let m := poke m 0x54 [0xf0, 0, 0, 0, 0x0b, 0x02]
  let m := poke m 0x70 [0, 0, 0, 0x40, 1, 0, 0, 0]
  let m := poke m 0xd0 [0x10, 0x10, 0, 0, 0x28, 0, 0, 0]
  let m := poke m 0x148 [0x2e, 0x69, 0x64, 0x61, 0x74, 0x61, 0, 0]
  let m := poke m 0x150 [0, 0x01, 0, 0, 0, 0x10, 0, 0, 0, 0x01, 0, 0, 0xb0, 0x01, 0, 0]
  let m := poke m 0x1c0 [0x70, 0x10, 0, 0, 0, 0, 0, 0, 0, 0, 0, 0, 0x50, 0x10, 0, 0,
    0x70, 0x10, 0, 0]
  let m := poke m 0x200 [0x6b, 0x2e, 0x64, 0x6c, 0x6c, 0]
  let m := poke m 0x210 [0x07, 0, 0x46, 0x6f, 0x6f, 0]
  poke m 0x220 [0x60, 0x10, 0, 0, 0, 0, 0, 0, 0x05, 0, 0, 0, 0x01, 0, 0, 0x80]

/-- The module that `sample64` imports from, as the import listing reports it. -/
def sample64_mod : impmod_t :=
  { ImpFlags := 0x1070, NameRVA := 0x1050, name := [0x6b, 0x2e, 0x64, 0x6c, 0x6c],
    ImpTabRVA := 0x1070,
    syms := [.name 0x140001070 [0x46, 0x6f, 0x6f], .ordinal 5],
    thunks := [0x70, 0x78, 0x80] }

/-- The image `sample32` with the file offset of its section set to 0. -/
def sample_noofs : List Byte := poke sample32 0x14c [0, 0, 0, 0]

/-- A state with the PE header at file offset 0xFFFFFF00, one section and `NTHdrSize`
0x100: the values that `peinfo` leaves for a file of more than 4 GiB whose dword at
0x3C is 0xFFFFFF00.  The stream is left empty here: the state serves to evaluate the
offset of the section records. -/
def state_far : g_info_t :=
  { g_info_init [] with
    peofs := 0xFFFFFF00
    peh := poke (poke (poke (zeros 48) 0 [0x50, 0x45, 0, 0]) 6 [1, 0]) 20 [0, 1, 0, 0, 0x0b, 0x01] }

/-- The image `sample32` with the third byte of the signature set to 1. -/
def sample_badsig : List Byte := poke sample32 0x42 [1]

/-- The image of scenario A, 0x1400 bytes: signature `PE\0\0` at 0x40, optional header
magic 0x10B, image base 0x400000, import directory at RVA 0x1010, one section `.idata`
with RVA 0x1000, virtual size 0x1000, physical size 0x1000 and file offset 0x400.  At
file offset 0x410 the section holds one import descriptor, for `k.dll` (name at RVA
0x1050), with the thunks 0x1060 (name `Foo`, hint 7), 0x80000005 and 0 at RVA 0x1040,
and after it the terminating descriptor. -/
def scenario_a : List Byte :=
  let m := zeros 0x1400
  let m := poke m 0x3c [0x40, 0, 0, 0]
  let m := poke m 0x40 [0x50, 0x45, 0, 0, 0x4c, 0x01, 1, 0]
  let m := poke m 0x54 [0xe0, 0, 0, 0, 0x0b, 0x01]
  let m := poke m 0x74 [0, 0, 0x40, 0]
  let m := poke m 0xc0 [0x10, 0x10, 0, 0, 0x28, 0, 0, 0]
  let m := poke m 0x138 [0x2e, 0x69, 0x64, 0x61, 0x74, 0x61, 0, 0]
  let m := poke m 0x140 [0, 0x10, 0, 0, 0, 0x10, 0, 0, 0, 0x10, 0, 0, 0, 0x04, 0, 0]
  let m := poke m 0x410 [0x40, 0x10, 0, 0, 0, 0, 0, 0, 0, 0, 0, 0, 0x50, 0x10, 0, 0,
    0x40, 0x10, 0, 0]
  let m := poke m 0x440 [0x60, 0x10, 0, 0, 0x05, 0, 0, 0x80, 0, 0, 0, 0]
  let m := poke m 0x450 [0x6b, 0x2e, 0x64, 0x6c, 0x6c, 0]
  poke m 0x460 [0x07, 0, 0x46, 0x6f, 0x6f, 0]

/-- The image of scenario B: scenario A with the optional header magic (the 16-bit
value at 0x58, which is 0x10B in scenario A) set to 0xDEAD. -/
def scenario_b : List Byte := poke scenario_a 0x58 [0xad, 0xde]

/-- The module that the image of scenario A declares: `k.dll`, with `Foo` by name and
5 by number. -/
def scenario_a_mod : impmod_t :=
  { ImpFlags := 0x1040, NameRVA := 0x1050, name := [0x6b, 0x2e, 0x64, 0x6c, 0x6c],
    ImpTabRVA := 0x1040,
    syms := [.name 0x401040 [0x46, 0x6f, 0x6f], .ordinal 5],
    thunks := [0x40, 0x44, 0x48] }

/-- The line of the section listing for the section of scenario A. -/
def scenario_a_obj : objout_t :=
  { name := [0x2e, 0x69, 0x64, 0x61, 0x74, 0x61], VirtualSize := 0x1000, RVA := 0x1000,
    va := 0x401000, PhysicalSize := 0x1000, PhysicalOffset := 0x400,
    importHere := true, exportHere := false }

/-- What a run with the options `-e -i -o` reports for scenario A after the header. -/
def scenario_a_tail : List item_t :=
  [.cantFindExport, .importTable [scenario_a_mod], .objects [scenario_a_obj]]

/-- The image `sample32` with the optional header magic set to 0x107. -/
def sample_rom : List Byte := poke sample32 0x58 [0x07, 0x01]

/-- The part of `main` that follows the return of `peinfo`, from the state `g` that
`peinfo` leaves. -/
def main_after (act : Nat) (g : g_info_t) (junk : junk_t) (fuel : Nat) :
    Outcome (List item_t) :=
  let g := if act ≠ 0 then objscan g (indet sizeof_peobj_t junk.scan) else g
  (main_export act g junk).bind fun e =>
  (main_import act g junk fuel).bind fun i =>
    .ok (.header (peinfo_out g) :: (e ++ i ++ main_objects act g junk))

/-- The image `sample32` with the physical size of its section set to 0x80; the
virtual size is 0x100. -/
def sample_physsize : List Byte := poke sample32 0x148 [0x80, 0, 0, 0]

/-- The image of scenario A with the file offset of its section set to 0. -/
def scenario_a_noofs : List Byte := poke scenario_a 0x14c [0, 0, 0, 0]

/-- The image `sample64` with its section moved to RVA 0x80001000: import directory
at RVA 0x80001010, the descriptor with `NameRVA` 0x80001050 and `ImpTabRVA`
0x80001070, and the thunks 0x80001060 (by name) and 0x8000000000000005. -/
def sample_high : List Byte :=
  let m := poke sample64 0xd0 [0x10, 0x10, 0, 0x80]
  let m := poke m 0x154 [0, 0x10, 0, 0x80]
  let m := poke m 0x1c0 [0x70, 0x10, 0, 0x80, 0, 0, 0, 0, 0, 0, 0, 0, 0x50, 0x10, 0, 0x80,
    0x70, 0x10, 0, 0x80]
  poke m 0x220 [0x60, 0x10, 0, 0x80, 0, 0, 0, 0, 0x05, 0, 0, 0, 0, 0, 0, 0x80]

/-- The image `sample32` with an export directory at RVA 0x1080 (file offset 0x230):
module name at RVA 0x1050, `OrdinalBase` 1, `NumEATEntries` 2, `NumNamePtrs` 2; the
address table at RVA 0x10b0 holds 0x2000 and 0x2010, and the four bytes before it hold
0x1234; the name pointer table at RVA 0x10c0 points to `f1` (RVA 0x10e0) and `g` (RVA
0x10e4); the ordinal table at RVA 0x10d0 holds 1 and 0xFFFF. -/
def sample_export2 : List Byte :=
  let m := poke sample32 0xb8 [0x80, 0x10, 0, 0, 0x28, 0, 0, 0]
  let m := poke m 0x230 [0, 0, 0, 0, 0, 0, 0, 0, 0, 0, 0, 0, 0x50, 0x10, 0, 0, 1, 0, 0, 0,
    2, 0, 0, 0, 2, 0, 0, 0, 0xb0, 0x10, 0, 0, 0xc0, 0x10, 0, 0, 0xd0, 0x10, 0, 0]
  let m := poke m 0x25c [0x34, 0x12, 0, 0, 0, 0x20, 0, 0, 0x10, 0x20, 0, 0]
  let m := poke m 0x270 [0xe0, 0x10, 0, 0, 0xe4, 0x10, 0, 0]
  let m := poke m 0x280 [1, 0, 0xff, 0xff]
  poke m 0x290 [0x66, 0x31, 0, 0, 0x67, 0]

/-- The state that `objscan` leaves for `sample_export2`. -/
def sample_export2_s : g_info_t := objscan (peinfo_of sample_export2) (zeros 40)

/-- What the export listing reports for `sample_export2`. -/
def sample_export2_out : expout_t :=
  { hdr := (sample_export2.drop 0x230).take 40, name := [0x6b, 0x2e, 0x64, 0x6c, 0x6c],
    unsupported := false,
    syms := [⟨0x402010, [0x66, 0x31]⟩, ⟨0x401234, [0x67]⟩],
    reads := [0xd0, 0xc0, 0xb4, 0xd2, 0xc4, 0xac] }

/-- The image `sample32` with another import table in its section (file offset 0x1b0,
RVA 0x1000): the descriptor of `k.dll` at RVA 0x1010 (name at RVA 0x1080, thunks
0x1090, 0x80000005 and 0 at RVA 0x1060), the descriptor of `u.dll` at RVA 0x1024
(name at RVA 0x1088, thunks 0x80000007 and 0 at RVA 0x1070), a descriptor with
`NameRVA` zero at RVA 0x1038, and after it, at RVA 0x104c, the bytes of the descriptor
of `u.dll` once more. -/
def sample_two : List Byte :=
  let m := poke sample32 0x1c0 (zeros 0x70)
  let m := poke m 0x1c0 [0x60, 0x10, 0, 0, 0, 0, 0, 0, 0, 0, 0, 0, 0x80, 0x10, 0, 0,
    0x60, 0x10, 0, 0]
  let m := poke m 0x1d4 [0x70, 0x10, 0, 0, 0, 0, 0, 0, 0, 0, 0, 0, 0x88, 0x10, 0, 0,
    0x70, 0x10, 0, 0]
  let m := poke m 0x1fc [0x70, 0x10, 0, 0, 0, 0, 0, 0, 0, 0, 0, 0, 0x88, 0x10, 0, 0,
    0x70, 0x10, 0, 0]
  let m := poke m 0x210 [0x90, 0x10, 0, 0, 0x05, 0, 0, 0x80, 0, 0, 0, 0]
  let m := poke m 0x220 [0x07, 0, 0, 0x80, 0, 0, 0, 0]
  let m := poke m 0x230 [0x6b, 0x2e, 0x64, 0x6c, 0x6c, 0]
  let m := poke m 0x238 [0x75, 0x2e, 0x64, 0x6c, 0x6c, 0]
  poke m 0x240 [0x07, 0, 0x46, 0x6f, 0x6f, 0]

/-- The state that `objscan` leaves for `sample_two`. -/
def sample_two_s : g_info_t := objscan (peinfo_of sample_two) (zeros 40)

/-- The block that `main` reads for the import table of `sample_two`. -/
def sample_two_imp : List Byte := table_data sample_two_s sample_two_s.imp []

/-- The two modules that `sample_two` imports from: `k.dll`, with `Foo` by name and 5
by number, and `u.dll`, with 7 by number. -/
def sample_two_mods : List impmod_t :=
  [{ ImpFlags := 0x1060, NameRVA := 0x1080, name := [0x6b, 0x2e, 0x64, 0x6c, 0x6c],
     ImpTabRVA := 0x1060,
     syms := [.name 0x401060 [0x46, 0x6f, 0x6f], .ordinal 5],
     thunks := [0x60, 0x64, 0x68] },
   { ImpFlags := 0x1070, NameRVA := 0x1088, name := [0x75, 0x2e, 0x64, 0x6c, 0x6c],
     ImpTabRVA := 0x1070,
     syms := [.ordinal 7],
     thunks := [0x70, 0x74] }]

/-- The number of thunks before the zero thunk in the descriptors of `sample_two`. -/
def sample_two_count (j : Nat) : Nat := if j = 0 then 2 else 1

/-- A descriptor at byte offset `p` of the block that the descriptor loop can list:
`NameRVA` is not zero, the fields and the module name can be read, and the thunk array
has `k` entries that are not zero and can be printed, then a zero entry. -/
def live_descriptor (bit64 : Bool) (d : List Byte) (rva : Int) (base : Nat) (p : Int)
    (k : Nat) : Prop :=
  ∃ NameRVA ImpTabRVA,
    load d (p + 12) 4 = some NameRVA ∧ NameRVA ≠ 0 ∧
    load d p 4 ≠ none ∧
    cstr d (NameRVA - rva) ≠ none ∧
    load d (p + 16) 4 = some ImpTabRVA ∧
    k * thunk_width bit64 < 2 ^ 31 ∧
    (∀ i, i < k → thunk_at bit64 d rva ImpTabRVA i ≠ some 0 ∧
      thunk_line bit64 d rva base ImpTabRVA i ≠ none) ∧
    thunk_at bit64 d rva ImpTabRVA k = some 0

/-- What the block holds for the descriptor at byte offset `p`, in a module of the
listing: its fields, its module name, and the lines of the `k` entries of its thunk
array before the entry `k`, which is zero; the thunk loop read these entries and no
other. -/
def lists_descriptor (bit64 : Bool) (d : List Byte) (rva : Int) (base : Nat) (p : Int)
    (k : Nat) (m : impmod_t) : Prop :=
  load d (p + 12) 4 = some m.NameRVA ∧ m.NameRVA ≠ 0 ∧
  load d p 4 = some m.ImpFlags ∧
  cstr d (m.NameRVA - rva) = some m.name ∧
  load d (p + 16) 4 = some m.ImpTabRVA ∧
  m.syms.length = k ∧
  (∀ i (h : i < m.syms.length),
    thunk_line bit64 d rva base m.ImpTabRVA i = some (m.syms.get ⟨i, h⟩)) ∧
  thunk_at bit64 d rva m.ImpTabRVA k = some 0 ∧
  m.thunks = (List.range (k + 1)).map fun i =>
    toInt32 (m.ImpTabRVA + i * thunk_width bit64) - rva

/-- No junk: every object that is not initialised starts zeroed. -/
def junk_zero : junk_t := ⟨[], [], [], []⟩

/-! # Theorems -/

/-! ## Lemmas on bytes and reads -/

theorem le_lt (bs : List Byte) : le bs < 256 ^ bs.length := by
  induction bs with
  | nil => simp [le]
  | cons b bs ih =>
    have hb := b.isLt
    simp only [le, List.length_cons, pow_succ]
    omega

theorem le_append_zeros (xs : List Byte) (k : Nat) : le (xs ++ List.replicate k 0) = le xs := by
  induction xs with
  | nil =>
    induction k with
    | zero => simp [le]
    | succ k ih => simp [List.replicate_succ, le, ih] at *
  | cons b bs ih => simp [le, ih]

theorem rd_lt (m : List Byte) (o w : Nat) : rd m o w < 256 ^ w := by
  unfold rd
  have h := le_lt ((m.drop o).take w)
  have h2 : ((m.drop o).take w).length ≤ w := by simp
  exact lt_of_lt_of_le h (Nat.pow_le_pow_right (by norm_num) h2)

theorem rd_past_end (m : List Byte) (o w : Nat) (h : m.length ≤ o) : rd m o w = 0 := by
  unfold rd
  rw [List.drop_eq_nil_of_le h]
  simp [le]

/-- A read into a zeroed object: every field decodes to the little-endian value at its
place in the file, bytes past the end of the file counting as zero. -/
theorem rd_fread_zeros (file : List Byte) (pos n o w : Nat) (h : o + w ≤ n) :
    rd (fread file pos n (zeros n)).1 o w = rd file (pos + o) w := by
  unfold rd fread zeros
  simp only [List.drop_append_eq_append_drop, List.take_append_eq_append_take,
    List.drop_replicate, List.take_replicate, le_append_zeros]
  rw [List.drop_take, List.take_take, List.drop_drop]
  congr 2
  omega

theorem fread_pos (file : List Byte) (pos n : Nat) (buf : List Byte) :
    (fread file pos n buf).2 = pos + min n (file.length - pos) := by
  simp [fread]

/-- A read into a zeroed object that follows a read of `n1` bytes at `pos` without a
seek in between. -/
theorem rd_fread_seq (file : List Byte) (pos n1 n o w : Nat) (buf : List Byte) (h : o + w ≤ n) :
    rd (fread file (fread file pos n1 buf).2 n (zeros n)).1 o w = rd file (pos + n1 + o) w := by
  rw [rd_fread_zeros _ _ _ _ _ h, fread_pos]
  by_cases hc : n1 ≤ file.length - pos
  · rw [Nat.min_eq_left hc]
  · rw [rd_past_end _ _ _ (by omega), rd_past_end _ _ _ (by omega)]

theorem bytesLE_zero (w : Nat) : bytesLE w 0 = zeros w := by
  induction w with
  | zero => rfl
  | succ w ih => simp [bytesLE, ih, zeros, List.replicate_succ]; rfl

/-- The four bytes at an offset spell the signature exactly when they decode to
`pemagic`. -/
theorem rd_eq_pemagic_iff (m : List Byte) (o : Nat) (h : o + 4 ≤ m.length) :
    rd m o 4 = pemagic ↔ (m.drop o).take 4 = [0x50, 0x45, 0, 0] := by
  have hl : ((m.drop o).take 4).length = 4 := by simp; omega
  unfold rd
  generalize (m.drop o).take 4 = l at hl
  match l, hl with
  | [a, b, c, d], _ =>
    have ha := a.isLt
    have hb := b.isLt
    have hc := c.isLt
    have hd := d.isLt
    have hm : pemagic = 0x4550 := by decide
    simp only [le, hm, List.cons.injEq, and_true]
    constructor
    · intro hv
      refine ⟨Fin.ext ?_, Fin.ext ?_, Fin.ext ?_, Fin.ext ?_⟩ <;>
        first
          | (show (_ : Nat) = 80; omega)
          | (show (_ : Nat) = 69; omega)
          | (show (_ : Nat) = 0; omega)
    · rintro ⟨rfl, rfl, rfl, rfl⟩
      rfl

/-- The fields that `peinfo` decodes from a freshly opened file, as values of the
file. -/
theorem peinfo_init_fields (file : List Byte) :
    let peofs := rd file peheadofs 4
    (fread file peheadofs 4 (bytesLE 4 (g_info_init file).peofs)).1 = (fread file peheadofs 4 (zeros 4)).1 ∧
    rd (fread file peheadofs 4 (zeros 4)).1 0 4 = peofs ∧
    (∀ o w, o + w ≤ 48 → rd (fread file peofs sizeof_head1_t (g_info_init file).peh).1 o w
      = rd file (peofs + o) w) := by
  refine ⟨?_, ?_, ?_⟩
  · simp [g_info_init, bytesLE_zero]
  · rw [rd_fread_zeros _ _ _ _ _ (by norm_num), Nat.add_zero]
  · intro o w h
    exact rd_fread_zeros _ _ _ _ _ h

theorem peinfo_cases (g : g_info_t) :
    ((peinfo_peh g).Magic ≠ pemagic ∧ peinfo g = .kerror (peinfo_peh g).Magic) ∨
    ((peinfo_peh g).Magic = pemagic ∧ ∃ g', peinfo g = .ok g') := by
  by_cases hm : (peinfo_peh g).Magic = pemagic
  · right
    refine ⟨hm, ?_⟩
    unfold peinfo_peh at hm
    unfold peinfo
    simp only [hm, ne_eq, not_true_eq_false, if_false]
    split_ifs <;> exact ⟨_, rfl⟩
  · left
    refine ⟨hm, ?_⟩
    unfold peinfo_peh at hm ⊢
    unfold peinfo
    simp only [ne_eq, hm, not_false_eq_true, if_true]

theorem peinfo_peh_init_Magic (file : List Byte) :
    (peinfo_peh (g_info_init file)).Magic = rd file (rd file peheadofs 4) 4 := by
  obtain ⟨h0, h1, h2⟩ := peinfo_init_fields file
  have hf : (g_info_init file).f = file := rfl
  unfold peinfo_peh head1_t.Magic
  rw [hf, h0, h1, h2 0 4 (by norm_num), Nat.add_zero]

/-- A read into a zeroed object that follows two reads without a seek in between. -/
theorem rd_fread_seq2 (file : List Byte) (pos n1 n2 n o w : Nat) (b1 b2 : List Byte)
    (h : o + w ≤ n) :
    rd (fread file (fread file (fread file pos n1 b1).2 n2 b2).2 n (zeros n)).1 o w
      = rd file (pos + n1 + n2 + o) w := by
  rw [rd_fread_zeros _ _ _ _ _ h, fread_pos, fread_pos]
  have hc : pos + min n1 (file.length - pos) + min n2 (file.length - (pos + min n1 (file.length - pos)))
      = pos + n1 + n2 ∨
      (file.length ≤ pos + min n1 (file.length - pos) + min n2 (file.length - (pos + min n1 (file.length - pos))) + o
        ∧ file.length ≤ pos + n1 + n2 + o) := by
    simp only [Nat.min_def]
    split_ifs <;> omega
  rcases hc with hc | ⟨h1, h2⟩
  · rw [hc]
  · rw [rd_past_end _ _ _ h1, rd_past_end _ _ _ h2]

/-- What `peinfo` leaves in `g_info` when it returns on a freshly opened file: every
field holds the value at its place in the file (bytes past the end count as zero). -/
theorem peinfo_init_ok (file : List Byte) (g : g_info_t)
    (h : peinfo (g_info_init file) = .ok g) :
    g.f = file ∧ g.peofs = rd file peheadofs 4 ∧
    (∀ o w, o + w ≤ 48 → rd g.peh o w = rd file (g.peofs + o) w) ∧
    g.peh.Magic = pemagic ∧
    g.bit64 = decide (g.peh.Magic2 = 0x20b) ∧
    (g.bit64 = false →
      (∀ o w, o + w ≤ 72 → rd g.pe32 o w = rd file (g.peofs + 48 + o) w) ∧
      g.base = g.pe32.ImageBase ∧
      (∀ o w, o + w ≤ 128 → rd g.dir o w = rd file (g.peofs + 120 + o) w)) ∧
    (g.bit64 = true →
      (∀ o w, o + w ≤ 88 → rd g.pe64 o w = rd file (g.peofs + 48 + o) w) ∧
      g.base = g.pe64.ImageBase ∧
      (∀ o w, o + w ≤ 128 → rd g.dir o w = rd file (g.peofs + 136 + o) w)) ∧
    g.imp = ⟨0, 0, 0⟩ ∧ g.exp = ⟨0, 0, 0⟩ := by
  obtain ⟨h0, h1, h2⟩ := peinfo_init_fields file
  have hf : (g_info_init file).f = file := rfl
  have hpe32 : (g_info_init file).pe32 = zeros 72 := rfl
  have hpe64 : (g_info_init file).pe64 = zeros 88 := rfl
  have hdir : (g_info_init file).dir = zeros 128 := rfl
  unfold peinfo at h
  simp only [hf, h0, h1, hpe32, hpe64, hdir] at h
  generalize hpeh : (fread file (rd file peheadofs 4) sizeof_head1_t (g_info_init file).peh) = r1
    at h h2
  have hbit : (if head1_t.Magic2 r1.1 = 0x10b then false
      else if head1_t.Magic2 r1.1 = 0x20b then true else false)
      = decide (head1_t.Magic2 r1.1 = 0x20b) := by
    by_cases hc : head1_t.Magic2 r1.1 = 0x10b
    · simp [hc]
    · by_cases hd : head1_t.Magic2 r1.1 = 0x20b <;> simp [hc, hd]
  rw [hbit] at h
  by_cases hm : head1_t.Magic r1.1 = pemagic
  · simp only [hm, ne_eq, not_true_eq_false, if_false] at h
    by_cases hb : head1_t.Magic2 r1.1 = 0x20b
    · simp only [hb, decide_True, if_true] at h
      cases h
      refine ⟨rfl, rfl, h2, hm, ?_, ?_, ?_, rfl, rfl⟩
      · simp [hb]
      · intro hx
        cases hx
      · intro _
        refine ⟨fun o w hw => ?_, rfl, fun o w hw => ?_⟩
        · rw [← hpeh]
          exact rd_fread_seq _ _ _ _ _ _ _ hw
        · rw [← hpeh]
          exact rd_fread_seq2 _ _ _ _ _ _ _ _ _ hw
    · simp only [hb, decide_False, Bool.false_eq_true, if_false] at h
      cases h
      refine ⟨rfl, rfl, h2, hm, ?_, ?_, ?_, rfl, rfl⟩
      · simp [hb]
      · intro _
        refine ⟨fun o w hw => ?_, rfl, fun o w hw => ?_⟩
        · rw [← hpeh]
          exact rd_fread_seq _ _ _ _ _ _ _ hw
        · rw [← hpeh]
          exact rd_fread_seq2 _ _ _ _ _ _ _ _ _ hw
      · intro hx
        cases hx
  · simp [hm] at h

/-- C2: when `peinfo` returns on a freshly opened file (the signature check passed),
with `peofs` the PE header offset: if the 16-bit value at `peofs + 24` is 0x10B then
the 32-bit optional header is used (`bit64` is 0 and `pe32` is decoded from the 72
bytes at `peofs + 48`) and `base` is the 32-bit little-endian value at `peofs + 52`;
if it is 0x20B then the 64-bit optional header is used (`bit64` is 1 and `pe64` is
decoded from the 88 bytes at `peofs + 48`) and `base` is the 64-bit little-endian
value at `peofs + 48`.  File values are taken with bytes past the end of the file
counting as zero. -/
theorem peinfo_optional_header (file : List Byte) (g : g_info_t)
    (h : peinfo (g_info_init file) = .ok g) :
    g.peofs = rd file peheadofs 4 ∧
    (rd file (g.peofs + 24) 2 = 0x10b →
      g.bit64 = false ∧ g.base = rd file (g.peofs + 52) 4 ∧ g.base < 2 ^ 32 ∧
      ∀ o w, o + w ≤ sizeof_head2_32_t → rd g.pe32 o w = rd file (g.peofs + 48 + o) w) ∧
    (rd file (g.peofs + 24) 2 = 0x20b →
      g.bit64 = true ∧ g.base = rd file (g.peofs + 48) 8 ∧
      ∀ o w, o + w ≤ sizeof_head2_64_t → rd g.pe64 o w = rd file (g.peofs + 48 + o) w) := by
  obtain ⟨_, hp, hpeh, _, hb, h32, h64, _, _⟩ := peinfo_init_ok file g h
  have hm2 : g.peh.Magic2 = rd file (g.peofs + 24) 2 := hpeh 24 2 (by norm_num)
  refine ⟨hp, fun hv => ?_, fun hv => ?_⟩
  · have hb' : g.bit64 = false := by
      rw [hb, hm2, hv]
      decide
    obtain ⟨hf, hbase, _⟩ := h32 hb'
    have hval : g.base = rd file (g.peofs + 52) 4 := by
      rw [hbase]
      exact hf 4 4 (by norm_num)
    refine ⟨hb', hval, ?_, hf⟩
    rw [hval]
    exact rd_lt _ _ _
  · have hb' : g.bit64 = true := by
      rw [hb, hm2, hv]
      decide
    obtain ⟨hf, hbase, _⟩ := h64 hb'
    refine ⟨hb', ?_, hf⟩
    rw [hbase]
    exact hf 0 8 (by norm_num)

/-- The theorem `peinfo_optional_header` at the image `sample32`. -/
theorem peinfo_optional_header_witness :
    peinfo (g_info_init sample32) = .ok sample32_g ∧
    (sample32_g.peofs = rd sample32 peheadofs 4 ∧
    (rd sample32 (sample32_g.peofs + 24) 2 = 0x10b →
      sample32_g.bit64 = false ∧ sample32_g.base = rd sample32 (sample32_g.peofs + 52) 4 ∧
      sample32_g.base < 2 ^ 32 ∧
      ∀ o w, o + w ≤ sizeof_head2_32_t →
        rd sample32_g.pe32 o w = rd sample32 (sample32_g.peofs + 48 + o) w) ∧
    (rd sample32 (sample32_g.peofs + 24) 2 = 0x20b →
      sample32_g.bit64 = true ∧ sample32_g.base = rd sample32 (sample32_g.peofs + 48) 8 ∧
      ∀ o w, o + w ≤ sizeof_head2_64_t →
        rd sample32_g.pe64 o w = rd sample32 (sample32_g.peofs + 48 + o) w)) :=
  ⟨by decide!, peinfo_optional_header sample32 sample32_g (by decide!)⟩

/-- C1: on a freshly opened file that holds four bytes at the PE header offset (the
little-endian dword at file offset 0x3C), `peinfo` ends in `kerror` (bad magic) exactly
when those four bytes are not 'P','E',0,0, and it returns exactly when they are; so a
header that starts 'P','E' with a non-zero third or fourth byte is rejected and every
header with the full signature is accepted. -/
theorem peinfo_bad_magic_iff (file : List Byte) (h : rd file peheadofs 4 + 4 ≤ file.length) :
    ((∃ m, peinfo (g_info_init file) = .kerror m) ↔
        (file.drop (rd file peheadofs 4)).take 4 ≠ [0x50, 0x45, 0, 0]) ∧
    ((∃ g, peinfo (g_info_init file) = .ok g) ↔
        (file.drop (rd file peheadofs 4)).take 4 = [0x50, 0x45, 0, 0]) := by
  simp only [ne_eq]
  rw [← rd_eq_pemagic_iff file _ h, ← peinfo_peh_init_Magic]
  rcases peinfo_cases (g_info_init file) with ⟨hm, hk⟩ | ⟨hm, g, hk⟩
  · rw [hk]
    simp [hm]
  · rw [hk]
    simp [hm]

/-- The theorem `peinfo_bad_magic_iff` at the image `sample_badsig`, whose header
starts 'P','E',1,0. -/
theorem peinfo_bad_magic_iff_witness :
    rd sample_badsig peheadofs 4 + 4 ≤ sample_badsig.length ∧
    (((∃ m, peinfo (g_info_init sample_badsig) = .kerror m) ↔
        (sample_badsig.drop (rd sample_badsig peheadofs 4)).take 4 ≠ [0x50, 0x45, 0, 0]) ∧
    ((∃ g, peinfo (g_info_init sample_badsig) = .ok g) ↔
        (sample_badsig.drop (rd sample_badsig peheadofs 4)).take 4 = [0x50, 0x45, 0, 0])) :=
  ⟨by decide!, peinfo_bad_magic_iff sample_badsig (by decide!)⟩

/-! ## The section scan -/

theorem toU32_toInt32 (x : Nat) : toU32 (toInt32 x) = x % 2 ^ 32 := by
  unfold toU32 toInt32
  split_ifs <;> omega

/-- The test of `objscan` in terms of the fields: the sum wraps at 2^32. -/
theorem objhit_iff (rva : Nat) (peo : peobj_t) (h : rva < 2 ^ 32) :
    objhit (toInt32 rva) peo = true ↔
      peo.RVA ≤ rva ∧ rva < (peo.RVA + peo.VirtualSize) % 2 ^ 32 := by
  unfold objhit
  rw [toU32_toInt32, Nat.mod_eq_of_lt h]
  simp

/-- The test of `objscan` is the containment of the RVA in the range of the section
when the end of the range is below 2^32. -/
theorem objhit_iff_of_no_wrap (rva : Nat) (peo : peobj_t) (h : rva < 2 ^ 32)
    (hs : peo.RVA + peo.VirtualSize < 2 ^ 32) :
    objhit (toInt32 rva) peo = true ↔ peo.RVA ≤ rva ∧ rva < peo.RVA + peo.VirtualSize := by
  rw [objhit_iff rva peo h, Nat.mod_eq_of_lt hs]

theorem lastloc_none (hit : Nat → Bool) (loc : Nat → loc_t) :
    ∀ (n cnt : Nat) (l : loc_t), (∀ k, cnt ≤ k → k < cnt + n → hit k = false) →
      lastloc hit loc n cnt l = l := by
  intro n
  induction n with
  | zero => intro cnt l _; rfl
  | succ n ih =>
    intro cnt l h
    have h0 : hit cnt = false := h cnt (le_refl _) (by omega)
    simp only [lastloc, h0, Bool.false_eq_true, if_false]
    exact ih (cnt + 1) l (fun k hk1 hk2 => h k (by omega) (by omega))

theorem lastloc_last (hit : Nat → Bool) (loc : Nat → loc_t) :
    ∀ (n cnt : Nat) (l : loc_t) (j : Nat), cnt ≤ j → j < cnt + n → hit j = true →
      (∀ k, j < k → k < cnt + n → hit k = false) → lastloc hit loc n cnt l = loc j := by
  intro n
  induction n with
  | zero => intro cnt l j h1 h2; omega
  | succ n ih =>
    intro cnt l j h1 h2 hj hk
    rcases Nat.eq_or_lt_of_le h1 with he | hlt
    · subst he
      simp only [lastloc, hj, if_true]
      exact lastloc_none hit loc n (cnt + 1) _ (fun k hk1 hk2 => hk k (by omega) (by omega))
    · simp only [lastloc]
      exact ih (cnt + 1) _ j (by omega) (by omega) hj (fun k hk1 hk2 => hk k hk1 (by omega))

theorem secofs_congr (g g' : g_info_t) (h1 : g'.peh = g.peh) (h2 : g'.peofs = g.peofs)
    (cnt : Nat) : secofs g' cnt = secofs g cnt := by
  unfold secofs
  rw [h1, h2]

/-- The loop of `objscan` keeps everything but the stream position, `imp` and `exp`,
and it leaves in `imp` and `exp` what a scan with overwrite over the section records
leaves. -/
theorem objscan_loop_eq (g0 : g_info_t) (peo0 : peobj_t) :
    ∀ (n cnt : Nat) (s : g_info_t × peobj_t), s.2 = scan_peo g0 peo0 cnt →
      s.1.f = g0.f → s.1.peh = g0.peh → s.1.peofs = g0.peofs → s.1.dir = g0.dir →
      (objscan_loop n cnt s).1.f = g0.f ∧ (objscan_loop n cnt s).1.peh = g0.peh ∧
      (objscan_loop n cnt s).1.peofs = g0.peofs ∧ (objscan_loop n cnt s).1.dir = g0.dir ∧
      (objscan_loop n cnt s).1.bit64 = s.1.bit64 ∧ (objscan_loop n cnt s).1.base = s.1.base ∧
      (objscan_loop n cnt s).1.pe32 = s.1.pe32 ∧ (objscan_loop n cnt s).1.pe64 = s.1.pe64 ∧
      (objscan_loop n cnt s).1.imp =
        lastloc (fun i => objhit (toInt32 g0.dir.ImportTable.RVA) (secrec g0 peo0 i))
          (fun i => secloc (secrec g0 peo0 i)) n cnt s.1.imp ∧
      (objscan_loop n cnt s).1.exp =
        lastloc (fun i => objhit (toInt32 g0.dir.ExportTable.RVA) (secrec g0 peo0 i))
          (fun i => secloc (secrec g0 peo0 i)) n cnt s.1.exp := by
  intro n
  induction n with
  | zero =>
    intro cnt s _ hf hpeh hpeofs hdir
    exact ⟨hf, hpeh, hpeofs, hdir, rfl, rfl, rfl, rfl, rfl, rfl⟩
  | succ n ih =>
    intro cnt s hs hf hpeh hpeofs hdir
    have hrec : (fread s.1.f (secofs s.1 cnt) sizeof_peobj_t s.2).1 = secrec g0 peo0 cnt := by
      rw [hf, secofs_congr g0 s.1 hpeh hpeofs, hs]
      rfl
    have hstep := ih (cnt + 1) (objscan_step cnt s)
    simp only [objscan_loop]
    have h2 : (objscan_step cnt s).2 = scan_peo g0 peo0 (cnt + 1) := by
      simp only [objscan_step, hrec]
      rfl
    have hf' : (objscan_step cnt s).1.f = g0.f := by
      simp only [objscan_step]
      split_ifs <;> exact hf
    have hpeh' : (objscan_step cnt s).1.peh = g0.peh := by
      simp only [objscan_step]
      split_ifs <;> exact hpeh
    have hpeofs' : (objscan_step cnt s).1.peofs = g0.peofs := by
      simp only [objscan_step]
      split_ifs <;> exact hpeofs
    have hdir' : (objscan_step cnt s).1.dir = g0.dir := by
      simp only [objscan_step]
      split_ifs <;> exact hdir
    obtain ⟨a1, a2, a3, a4, a5, a6, a7, a8, a9, a10⟩ := hstep h2 hf' hpeh' hpeofs' hdir'
    refine ⟨a1, a2, a3, a4, ?_, ?_, ?_, ?_, ?_, ?_⟩
    · rw [a5]
      simp only [objscan_step]
      split_ifs <;> rfl
    · rw [a6]
      simp only [objscan_step]
      split_ifs <;> rfl
    · rw [a7]
      simp only [objscan_step]
      split_ifs <;> rfl
    · rw [a8]
      simp only [objscan_step]
      split_ifs <;> rfl
    · rw [a9]
      simp only [lastloc]
      congr 1
      simp only [objscan_step, hrec, hdir]
      split_ifs <;> rfl
    · rw [a10]
      simp only [lastloc]
      congr 1
      simp only [objscan_step, hrec, hdir]
      split_ifs <;> rfl

/-- `objscan` in closed form. -/
theorem objscan_eq (g : g_info_t) (peo : peobj_t) :
    (objscan g peo).f = g.f ∧ (objscan g peo).peh = g.peh ∧
    (objscan g peo).peofs = g.peofs ∧ (objscan g peo).dir = g.dir ∧
    (objscan g peo).bit64 = g.bit64 ∧ (objscan g peo).base = g.base ∧
    (objscan g peo).pe32 = g.pe32 ∧ (objscan g peo).pe64 = g.pe64 ∧
    (objscan g peo).imp =
      lastloc (fun i => objhit (toInt32 g.dir.ImportTable.RVA) (secrec g peo i))
        (fun i => secloc (secrec g peo i)) g.peh.Sections 0 ⟨0, g.imp.siz, g.imp.RVA⟩ ∧
    (objscan g peo).exp =
      lastloc (fun i => objhit (toInt32 g.dir.ExportTable.RVA) (secrec g peo i))
        (fun i => secloc (secrec g peo i)) g.peh.Sections 0 ⟨0, g.exp.siz, g.exp.RVA⟩ := by
  unfold objscan
  exact objscan_loop_eq g peo g.peh.Sections 0 _ rfl rfl rfl rfl rfl

/-- C3 (the code at the failing input): in the image `sample_wrap` the import
directory RVA 0xFFFFF800 lies in the range of the only section, RVA 0xFFFFF000 with
virtual size 0x2000, when the sum is taken as an ordinary integer; the test of
`objscan` fails for that section, `objscan` records nothing, and the run reports that
it cannot find the import table. -/
theorem objscan_range_wraps :
    peinfo (g_info_init sample_wrap) = .ok (peinfo_of sample_wrap) ∧
    (peinfo_of sample_wrap).peh.Sections = 1 ∧
    (peinfo_of sample_wrap).dir.ImportTable.RVA = 0xFFFFF800 ∧
    (secrec (peinfo_of sample_wrap) (zeros 40) 0).RVA = 0xFFFFF000 ∧
    (secrec (peinfo_of sample_wrap) (zeros 40) 0).VirtualSize = 0x2000 ∧
    spec_contains (peinfo_of sample_wrap).dir.ImportTable.RVA
      (secrec (peinfo_of sample_wrap) (zeros 40) 0) = true ∧
    objhit (toInt32 (peinfo_of sample_wrap).dir.ImportTable.RVA)
      (secrec (peinfo_of sample_wrap) (zeros 40) 0) = false ∧
    (objscan (peinfo_of sample_wrap) (zeros 40)).imp.ofs = 0 ∧
    main ACT_IMPORT sample_wrap junk_zero 8 =
      .ok [.header (peinfo_out (peinfo_of sample_wrap)), .cantFindImport] := by
  decide!

theorem objhit_eq_spec_contains (rva : Nat) (peo : peobj_t) (h : rva < 2 ^ 32)
    (hs : peo.RVA + peo.VirtualSize < 2 ^ 32) :
    objhit (toInt32 rva) peo = spec_contains rva peo := by
  rw [Bool.eq_iff_iff, objhit_iff_of_no_wrap rva peo h hs]
  simp [spec_contains]

theorem last_hit_congr (hit hit' : Nat → Bool) (n j : Nat) (h : ∀ i, i < n → hit i = hit' i)
    (hl : last_hit hit' n j) : last_hit hit n j := by
  obtain ⟨h1, h2, h3⟩ := hl
  exact ⟨h1, by rw [h j h1]; exact h2, fun k hk1 hk2 => by rw [h k hk2]; exact h3 k hk1 hk2⟩

theorem objscan_imp_of_last_hit (g : g_info_t) (peo : peobj_t) (j : Nat)
    (h : last_hit (fun i => objhit (toInt32 g.dir.ImportTable.RVA) (secrec g peo i))
      g.peh.Sections j) :
    (objscan g peo).imp = ⟨(secrec g peo j).PhysicalOffset, (secrec g peo j).VirtualSize,
      (secrec g peo j).RVA⟩ := by
  obtain ⟨_, _, _, _, _, _, _, _, hi, _⟩ := objscan_eq g peo
  obtain ⟨h1, h2, h3⟩ := h
  rw [hi]
  exact lastloc_last _ _ _ 0 _ j (Nat.zero_le _) (by omega) h2
    (fun k hk1 hk2 => h3 k hk1 (by omega))

theorem objscan_exp_of_last_hit (g : g_info_t) (peo : peobj_t) (j : Nat)
    (h : last_hit (fun i => objhit (toInt32 g.dir.ExportTable.RVA) (secrec g peo i))
      g.peh.Sections j) :
    (objscan g peo).exp = ⟨(secrec g peo j).PhysicalOffset, (secrec g peo j).VirtualSize,
      (secrec g peo j).RVA⟩ := by
  obtain ⟨_, _, _, _, _, _, _, _, _, he⟩ := objscan_eq g peo
  obtain ⟨h1, h2, h3⟩ := h
  rw [he]
  exact lastloc_last _ _ _ 0 _ j (Nat.zero_le _) (by omega) h2
    (fun k hk1 hk2 => h3 k hk1 (by omega))

/-- After `objscan`, when section `j` is the last section in file order that
passes the test of `objscan` for the import directory RVA, `imp` holds the
`PhysicalOffset`, `VirtualSize` and `RVA` of section `j`, whatever the other sections
are (overlapping or not); and the same for the export directory and `exp`.  "Passes
the test" is "contains the RVA" as `objscan` decides it; when the range of no section
reaches 2^32 it is the containment `RVA <= rva < RVA + VirtualSize`, and the same
holds for the last section that contains the RVA in that sense. -/
theorem objscan_last_wins (g : g_info_t) (peo : peobj_t) :
    (∀ j, last_hit (fun i => objhit (toInt32 g.dir.ImportTable.RVA) (secrec g peo i))
        g.peh.Sections j →
      (objscan g peo).imp = ⟨(secrec g peo j).PhysicalOffset, (secrec g peo j).VirtualSize,
        (secrec g peo j).RVA⟩) ∧
    (∀ j, last_hit (fun i => objhit (toInt32 g.dir.ExportTable.RVA) (secrec g peo i))
        g.peh.Sections j →
      (objscan g peo).exp = ⟨(secrec g peo j).PhysicalOffset, (secrec g peo j).VirtualSize,
        (secrec g peo j).RVA⟩) ∧
    ((∀ i, i < g.peh.Sections → (secrec g peo i).RVA + (secrec g peo i).VirtualSize < 2 ^ 32) →
      (∀ j, last_hit (fun i => spec_contains g.dir.ImportTable.RVA (secrec g peo i))
          g.peh.Sections j →
        (objscan g peo).imp = ⟨(secrec g peo j).PhysicalOffset, (secrec g peo j).VirtualSize,
          (secrec g peo j).RVA⟩) ∧
      (∀ j, last_hit (fun i => spec_contains g.dir.ExportTable.RVA (secrec g peo i))
          g.peh.Sections j →
        (objscan g peo).exp = ⟨(secrec g peo j).PhysicalOffset, (secrec g peo j).VirtualSize,
          (secrec g peo j).RVA⟩)) := by
  have himp := objscan_imp_of_last_hit g peo
  have hexp := objscan_exp_of_last_hit g peo
  refine ⟨himp, hexp, fun hnw => ⟨fun j hj => himp j ?_, fun j hj => hexp j ?_⟩⟩
  · exact last_hit_congr _ _ _ _
      (fun i hi' => objhit_eq_spec_contains _ _ (rd_lt _ _ _) (hnw i hi')) hj
  · exact last_hit_congr _ _ _ _
      (fun i hi' => objhit_eq_spec_contains _ _ (rd_lt _ _ _) (hnw i hi')) hj

/-- The theorem `objscan_last_wins` at the image `sample_overlap`: sections 0 and 1
both pass the test for the import directory RVA 0x1010, section 2 does not, and `imp`
is taken from section 1. -/
theorem objscan_last_wins_witness :
    objhit (toInt32 (peinfo_of sample_overlap).dir.ImportTable.RVA)
      (secrec (peinfo_of sample_overlap) (zeros 40) 0) = true ∧
    (objscan (peinfo_of sample_overlap) (zeros 40)).imp = ⟨0x1b0, 0x1000, 0x800⟩ := by
  have hn : (peinfo_of sample_overlap).peh.Sections = 3 := by decide!
  have h := (objscan_last_wins (peinfo_of sample_overlap) (zeros 40)).1 1
    ⟨by decide!, by decide!, fun k h1 h2 => by
      have hk : k = 2 := by omega
      subst hk
      decide!⟩
  refine ⟨by decide!, ?_⟩
  rw [h]
  decide!

theorem exists_last_hit (hit : Nat → Bool) :
    ∀ n, (∀ k, k < n → hit k = false) ∨ ∃ j, last_hit hit n j := by
  intro n
  induction n with
  | zero => exact Or.inl (fun k hk => absurd hk (Nat.not_lt_zero k))
  | succ n ih =>
    cases hn : hit n with
    | true => exact Or.inr ⟨n, Nat.lt_succ_self n, hn, fun k h1 h2 => by omega⟩
    | false =>
      rcases ih with h | ⟨j, h1, h2, h3⟩
      · left
        intro k hk
        rcases Nat.eq_or_lt_of_le (Nat.le_of_lt_succ hk) with he | hlt
        · rw [he]; exact hn
        · exact h k hlt
      · right
        refine ⟨j, by omega, h2, fun k hk1 hk2 => ?_⟩
        rcases Nat.eq_or_lt_of_le (Nat.le_of_lt_succ hk2) with he | hlt
        · rw [he]; exact hn
        · exact h3 k hk1 hlt

/-- The file offset that a scan with overwrite from offset 0 ends with is 0 exactly
when every last hit has the file offset 0 (so also when there is no hit). -/
theorem lastloc_ofs_eq_zero_iff (hit : Nat → Bool) (loc : Nat → loc_t) (n siz rva : Nat) :
    (lastloc hit loc n 0 ⟨0, siz, rva⟩).ofs = 0 ↔ ∀ j, last_hit hit n j → (loc j).ofs = 0 := by
  constructor
  · rintro h j ⟨h1, h2, h3⟩
    rw [lastloc_last hit loc n 0 _ j (Nat.zero_le _) (by omega) h2
      (fun k hk1 hk2 => h3 k hk1 (by omega))] at h
    exact h
  · intro h
    rcases exists_last_hit hit n with hno | ⟨j, h1, h2, h3⟩
    · rw [lastloc_none hit loc n 0 _ (fun k _ hk2 => hno k (by omega))]
    · rw [lastloc_last hit loc n 0 _ j (Nat.zero_le _) (by omega) h2
        (fun k hk1 hk2 => h3 k hk1 (by omega))]
      exact h j ⟨h1, h2, h3⟩

/-- C5 (counterexample): in the image `sample_noofs` the only section contains the RVA
0x1010 of the import directory (section RVA 0x1000, virtual size 0x100, and the test of
`objscan` holds), its file offset is 0, and the run reports that it cannot find the
table of imports. -/
theorem cant_find_with_containing_section :
    peinfo (g_info_init sample_noofs) = .ok (peinfo_of sample_noofs) ∧
    (peinfo_of sample_noofs).peh.Sections = 1 ∧
    (peinfo_of sample_noofs).dir.ImportTable.RVA = 0x1010 ∧
    (secrec (peinfo_of sample_noofs) (zeros 40) 0).RVA = 0x1000 ∧
    (secrec (peinfo_of sample_noofs) (zeros 40) 0).VirtualSize = 0x100 ∧
    (secrec (peinfo_of sample_noofs) (zeros 40) 0).PhysicalOffset = 0 ∧
    objhit (toInt32 (peinfo_of sample_noofs).dir.ImportTable.RVA)
      (secrec (peinfo_of sample_noofs) (zeros 40) 0) = true ∧
    main ACT_IMPORT sample_noofs junk_zero 8 =
      .ok [.header (peinfo_out (peinfo_of sample_noofs)), .cantFindImport] := by
  decide!

/-- C5 (amended): for the state that `objscan` leaves, the import part of `main`,
when the import listing is asked for, reports "can't find import table" (and walks
nothing) exactly when no section passes the test of `objscan` for the import
directory RVA or the last section that passes it has `PhysicalOffset` 0; and when the
last section that passes it has a `PhysicalOffset` that is not 0, the block is read
at that file offset, with that section's `VirtualSize` as its size, and `impinfo`
walks it.  The same for the export part, the export directory and `expinfo`. -/
theorem table_not_present_iff (act : Nat) (g : g_info_t) (peo : peobj_t) (junk : junk_t)
    (fuel : Nat) :
    (act &&& ACT_IMPORT ≠ 0 →
      (main_import act (objscan g peo) junk fuel = .ok [.cantFindImport] ↔
        ∀ j, last_hit (fun i => objhit (toInt32 g.dir.ImportTable.RVA) (secrec g peo i))
          g.peh.Sections j → (secrec g peo j).PhysicalOffset = 0) ∧
      (∀ j, last_hit (fun i => objhit (toInt32 g.dir.ImportTable.RVA) (secrec g peo i))
          g.peh.Sections j → (secrec g peo j).PhysicalOffset ≠ 0 →
        main_import act (objscan g peo) junk fuel =
          (impinfo (objscan g peo) (fread g.f (secrec g peo j).PhysicalOffset
            (secrec g peo j).VirtualSize
            (indet (secrec g peo j).VirtualSize junk.impdata)).1 fuel).bind
            fun ms => .ok [.importTable ms])) ∧
    (act &&& ACT_EXPORT ≠ 0 →
      (main_export act (objscan g peo) junk = .ok [.cantFindExport] ↔
        ∀ j, last_hit (fun i => objhit (toInt32 g.dir.ExportTable.RVA) (secrec g peo i))
          g.peh.Sections j → (secrec g peo j).PhysicalOffset = 0) ∧
      (∀ j, last_hit (fun i => objhit (toInt32 g.dir.ExportTable.RVA) (secrec g peo i))
          g.peh.Sections j → (secrec g peo j).PhysicalOffset ≠ 0 →
        main_export act (objscan g peo) junk =
          (expinfo (objscan g peo) (fread g.f (secrec g peo j).PhysicalOffset
            (secrec g peo j).VirtualSize
            (indet (secrec g peo j).VirtualSize junk.expdata)).1).bind
            fun e => .ok [.exportTable e])) := by
  obtain ⟨hf, _, _, _, _, _, _, _, hi, he⟩ := objscan_eq g peo
  have hzi := lastloc_ofs_eq_zero_iff
    (fun i => objhit (toInt32 g.dir.ImportTable.RVA) (secrec g peo i))
    (fun i => secloc (secrec g peo i)) g.peh.Sections g.imp.siz g.imp.RVA
  have hze := lastloc_ofs_eq_zero_iff
    (fun i => objhit (toInt32 g.dir.ExportTable.RVA) (secrec g peo i))
    (fun i => secloc (secrec g peo i)) g.peh.Sections g.exp.siz g.exp.RVA
  rw [← hi] at hzi
  rw [← he] at hze
  have hso : ∀ j, (secloc (secrec g peo j)).ofs = (secrec g peo j).PhysicalOffset := fun _ => rfl
  simp only [hso] at hzi hze
  have hli := objscan_imp_of_last_hit g peo
  have hle := objscan_exp_of_last_hit g peo
  refine ⟨fun ha => ⟨?_, ?_⟩, fun ha => ⟨?_, ?_⟩⟩
  · rw [← hzi]
    unfold main_import
    simp only [ha, ne_eq, not_false_eq_true, if_true]
    by_cases hz : (objscan g peo).imp.ofs = 0
    · simp [hz]
    · simp only [hz, if_false, iff_false]
      cases impinfo (objscan g peo) (table_data (objscan g peo) (objscan g peo).imp junk.impdata)
        fuel <;> simp [Outcome.bind]
  · intro j hj hne
    have hloc := hli j hj
    unfold main_import table_data
    simp only [ha, ne_eq, not_false_eq_true, if_true, hloc, hne, if_false, hf]
  · rw [← hze]
    unfold main_export
    simp only [ha, ne_eq, not_false_eq_true, if_true]
    by_cases hz : (objscan g peo).exp.ofs = 0
    · simp [hz]
    · simp only [hz, if_false, iff_false]
      cases expinfo (objscan g peo) (table_data (objscan g peo) (objscan g peo).exp junk.expdata)
        <;> simp [Outcome.bind]
  · intro j hj hne
    have hloc := hle j hj
    unfold main_export table_data
    simp only [ha, ne_eq, not_false_eq_true, if_true, hloc, hne, if_false, hf]

/-- The theorem `table_not_present_iff` at the images `sample_noofs` (the section that
passes the test has file offset 0: not found) and `sample32` (file offset 0x1b0,
virtual size 0x100: the block is read there and walked). -/
theorem table_not_present_iff_witness :
    ACT_IMPORT &&& ACT_IMPORT ≠ 0 ∧
    main_import ACT_IMPORT (objscan (peinfo_of sample_noofs) (zeros 40)) junk_zero 8
      = .ok [.cantFindImport] ∧
    main_import ACT_IMPORT (objscan (peinfo_of sample32) (zeros 40)) junk_zero 8
      = (impinfo (objscan (peinfo_of sample32) (zeros 40))
          (fread (peinfo_of sample32).f (secrec (peinfo_of sample32) (zeros 40) 0).PhysicalOffset
            (secrec (peinfo_of sample32) (zeros 40) 0).VirtualSize
            (indet (secrec (peinfo_of sample32) (zeros 40) 0).VirtualSize junk_zero.impdata)).1
          8).bind fun ms => .ok [.importTable ms] := by
  have hn1 : (peinfo_of sample_noofs).peh.Sections = 1 := by decide!
  have hn2 : (peinfo_of sample32).peh.Sections = 1 := by decide!
  refine ⟨by decide, ?_, ?_⟩
  · refine ((table_not_present_iff ACT_IMPORT (peinfo_of sample_noofs) (zeros 40) junk_zero
      8).1 (by decide)).1.mpr ?_
    rintro j ⟨h1, _, _⟩
    have hj : j = 0 := by omega
    subst hj
    decide!
  · exact ((table_not_present_iff ACT_IMPORT (peinfo_of sample32) (zeros 40) junk_zero
      8).1 (by decide)).2 0 ⟨by decide!, by decide!, fun k h1 h2 => by omega⟩ (by decide!)

/-- The offset of the section records when the sum of the header offset and
`NTHdrSize` is below 2^32. -/
theorem secofs_of_no_wrap (g : g_info_t) (i : Nat) (h : g.peofs + g.peh.NTHdrSize < 2 ^ 32) :
    secofs g i = g.peofs + g.peh.NTHdrSize + 24 + 40 * i := by
  unfold secofs offsetof_Magic2 sizeof_peobj_t
  rw [Nat.add_comm g.peh.NTHdrSize, Nat.mod_eq_of_lt h]
  omega

theorem fread_full (file : List Byte) (pos n : Nat) (buf : List Byte)
    (h : pos + n ≤ file.length) (hb : buf.length ≤ n) :
    (fread file pos n buf).1 = (file.drop pos).take n := by
  unfold fread
  have hl : ((file.drop pos).take n).length = n := by simp; omega
  simp only [hl]
  rw [List.drop_eq_nil_of_le hb, List.append_nil]

theorem fread_length (file : List Byte) (pos n : Nat) (buf : List Byte) (hb : buf.length = n) :
    (fread file pos n buf).1.length = n := by
  unfold fread
  simp
  omega

theorem scan_peo_length (g : g_info_t) (peo : peobj_t) (h : peo.length = sizeof_peobj_t) :
    ∀ i, (scan_peo g peo i).length = sizeof_peobj_t := by
  intro i
  induction i with
  | zero => exact h
  | succ i ih => exact fread_length _ _ _ _ ih

/-- The record of section `i` is the 40 bytes of the file at `secofs g i` when the
file holds them. -/
theorem secrec_eq_file (g : g_info_t) (peo : peobj_t) (i : Nat)
    (hp : peo.length = sizeof_peobj_t) (h : secofs g i + sizeof_peobj_t ≤ g.f.length) :
    secrec g peo i = (g.f.drop (secofs g i)).take sizeof_peobj_t := by
  unfold secrec
  simp only [scan_peo]
  exact fread_full _ _ _ _ h (le_of_eq (scan_peo_length g peo hp i))

/-- C6 (the code at the failing input): with the PE header at file offset 0xFFFFFF00
and `NTHdrSize` 0x100, the record of section 0 is read at file offset 24 and not at
0xFFFFFF00 + 0x100 + 24, because the sum of `NTHdrSize` and `peofs` is taken modulo
2^32. -/
theorem secofs_wraps :
    state_far.peofs = 0xFFFFFF00 ∧ state_far.peh.NTHdrSize = 0x100 ∧
    state_far.peh.Magic = pemagic ∧ state_far.peh.Sections = 1 ∧
    secofs state_far 0 = 24 ∧
    state_far.peofs + state_far.peh.NTHdrSize + 24 + 40 * 0 = 0x100000018 := by
  decide!

/-! ## The import walk -/

/-- The thunk loop from index `i`, when the entries `i`, ..., `i + k - 1` can be read,
are not zero and their lines can be printed, and entry `i + k` is zero: with more than
`k` units of fuel it returns `k` lines, the line of each of these entries in order,
after reading the entries `i`, ..., `i + k` and no other. -/
theorem thunk_loop_run (bit64 : Bool) (d : List Byte) (rva : Int) (base T : Nat) :
    ∀ (k i fuel : Nat), k < fuel → (i + k) * thunk_width bit64 < 2 ^ 31 →
      (∀ j, j < k → thunk_at bit64 d rva T (i + j) ≠ some 0 ∧
        thunk_line bit64 d rva base T (i + j) ≠ none) →
      thunk_at bit64 d rva T (i + k) = some 0 →
      ∃ syms, thunk_loop bit64 d rva base T fuel i
          = .ok (syms, (List.range' i (k + 1)).map fun j => thunk_ofs bit64 T j - rva) ∧
        syms.length = k ∧
        ∀ j (h : j < syms.length), thunk_line bit64 d rva base T (i + j) = some (syms.get ⟨j, h⟩) := by
  intro k
  induction k with
  | zero =>
    intro i fuel hf hov _ hz
    obtain ⟨f, rfl⟩ : ∃ f, fuel = f + 1 := ⟨fuel - 1, by omega⟩
    refine ⟨[], ?_, rfl, fun j h => absurd h (Nat.not_lt_zero j)⟩
    have hov' : ¬ 2 ^ 31 ≤ i * thunk_width bit64 := by
      simp only [Nat.add_zero] at hov
      omega
    simp only [Nat.add_zero] at hz
    simp only [thunk_loop, hov', if_false, hz, if_true]
    rfl
  | succ k ih =>
    intro i fuel hf hov hnz hz
    obtain ⟨f, rfl⟩ : ∃ f, fuel = f + 1 := ⟨fuel - 1, by omega⟩
    have hw : (i + 1 + k) * thunk_width bit64 < 2 ^ 31 := by
      have : i + (k + 1) = i + 1 + k := by omega
      rw [← this]
      exact hov
    have hov' : ¬ 2 ^ 31 ≤ i * thunk_width bit64 := by
      have : i * thunk_width bit64 ≤ (i + (k + 1)) * thunk_width bit64 :=
        Nat.mul_le_mul_right _ (by omega)
      omega
    have h0 := hnz 0 (Nat.succ_pos k)
    simp only [Nat.add_zero] at h0
    obtain ⟨hne, hline⟩ := h0
    have hz' : thunk_at bit64 d rva T (i + 1 + k) = some 0 := by
      have : i + (k + 1) = i + 1 + k := by omega
      rw [← this]
      exact hz
    have hnz' : ∀ j, j < k → thunk_at bit64 d rva T (i + 1 + j) ≠ some 0 ∧
        thunk_line bit64 d rva base T (i + 1 + j) ≠ none := by
      intro j hj
      have : i + (j + 1) = i + 1 + j := by omega
      rw [← this]
      exact hnz (j + 1) (by omega)
    obtain ⟨syms, hrun, hlen, hsyms⟩ := ih (i + 1) f (by omega) hw hnz' hz'
    cases hv : thunk_at bit64 d rva T i with
    | none => simp [thunk_line, hv] at hline
    | some v =>
      have hv0 : v ≠ 0 := by
        intro h0
        rw [hv, h0] at hne
        exact hne rfl
      cases hl : impsym d rva base (thunk_ofs bit64 T i) v with
      | none => simp [thunk_line, hv, hl] at hline
      | some line =>
        refine ⟨line :: syms, ?_, by simp [hlen], ?_⟩
        · simp only [thunk_loop, hov', if_false, hv, hv0, hl, hrun, Outcome.bind]
          rfl
        · intro j h
          cases j with
          | zero => simp [thunk_line, hv, hl]
          | succ j =>
            have : i + (j + 1) = i + 1 + j := by omega
            rw [this]
            simpa using hsyms j (by simpa using h)

/-- C7: for a thunk array in which the entries 0, ..., k-1 (4 bytes wide in a 32-bit
image, 8 bytes wide in a 64-bit image, entry `i` at `ImpTabRVA + i * width`) can be
read, are not zero and have a line that can be printed, and entry `k` is zero, the
thunk loop of `impinfo` returns with any fuel above `k`; it prints exactly `k` lines,
line `j` being the one for entry `j`, and the entries it reads are the entries
0, ..., k and no other. -/
theorem thunk_walk_stops_at_first_zero (bit64 : Bool) (d : List Byte) (rva : Int)
    (base ImpTabRVA k fuel : Nat) (hfuel : k < fuel) (hsize : k * thunk_width bit64 < 2 ^ 31)
    (hlive : ∀ j, j < k → thunk_at bit64 d rva ImpTabRVA j ≠ some 0 ∧
      thunk_line bit64 d rva base ImpTabRVA j ≠ none)
    (hzero : thunk_at bit64 d rva ImpTabRVA k = some 0) :
    ∃ syms, thunk_loop bit64 d rva base ImpTabRVA fuel 0
        = .ok (syms, (List.range (k + 1)).map fun j =>
            toInt32 (ImpTabRVA + j * thunk_width bit64) - rva) ∧
      syms.length = k ∧
      ∀ j (h : j < syms.length),
        thunk_line bit64 d rva base ImpTabRVA j = some (syms.get ⟨j, h⟩) := by
  have h := thunk_loop_run bit64 d rva base ImpTabRVA k 0 fuel hfuel (by simpa using hsize)
    (by simpa using hlive) (by simpa using hzero)
  simpa [List.range_eq_range', thunk_ofs] using h

/-- The theorem `thunk_walk_stops_at_first_zero` at the thunk array of `sample32`:
two entries that are not zero, then a zero entry. -/
theorem thunk_walk_stops_at_first_zero_witness :
    ∃ syms, thunk_loop false sample32_imp 0x1000 0x400000 0x1040 3 0
        = .ok (syms, (List.range (2 + 1)).map fun j =>
            toInt32 (0x1040 + j * thunk_width false) - 0x1000) ∧
      syms.length = 2 ∧
      ∀ j (h : j < syms.length),
        thunk_line false sample32_imp 0x1000 0x400000 0x1040 j = some (syms.get ⟨j, h⟩) :=
  thunk_walk_stops_at_first_zero false sample32_imp 0x1000 0x400000 0x1040 2 3
    (by decide) (by decide) (by decide!) (by decide!)

/-- More fuel does not change the result of a thunk loop that returns. -/
theorem thunk_loop_mono (bit64 : Bool) (d : List Byte) (rva : Int) (base T : Nat) :
    ∀ (fuel fuel' i : Nat) (r : List impsym_t × List Int), fuel ≤ fuel' →
      thunk_loop bit64 d rva base T fuel i = .ok r →
      thunk_loop bit64 d rva base T fuel' i = .ok r := by
  intro fuel
  induction fuel with
  | zero =>
    intro fuel' i r _ h
    simp [thunk_loop] at h
  | succ f ih =>
    intro fuel' i r hle h
    obtain ⟨f', rfl⟩ : ∃ f', fuel' = f' + 1 := ⟨fuel' - 1, by omega⟩
    simp only [thunk_loop] at h ⊢
    split_ifs at h ⊢ with hov
    cases hv : thunk_at bit64 d rva T i with
    | none => simp [hv] at h
    | some v =>
      simp only [hv] at h ⊢
      split_ifs at h ⊢ with hz
      · exact h
      · cases hl : impsym d rva base (thunk_ofs bit64 T i) v with
        | none => simp [hl] at h
        | some line =>
          simp only [hl] at h ⊢
          cases hr : thunk_loop bit64 d rva base T f (i + 1) with
          | ok r' =>
            rw [ih f' (i + 1) r' (by omega) hr]
            rw [hr] at h
            exact h
          | kerror m => simp [hr, Outcome.bind] at h
          | fault => simp [hr, Outcome.bind] at h
          | more => simp [hr, Outcome.bind] at h

/-- More fuel for the thunk loop does not change the result of the body of the
descriptor loop when it returns. -/
theorem imp_entry_mono (bit64 : Bool) (d : List Byte) (rva : Int) (base tf tf' : Nat) (p : Int)
    (n : Nat) (m : impmod_t) (hle : tf ≤ tf')
    (h : imp_entry bit64 d rva base tf p n = .ok m) :
    imp_entry bit64 d rva base tf' p n = .ok m := by
  unfold imp_entry at h ⊢
  cases h1 : load d p 4 with
  | none => simp [h1, Outcome.ofOption, Outcome.bind] at h
  | some a =>
    cases h2 : cstr d (n - rva) with
    | none => simp [h1, h2, Outcome.ofOption, Outcome.bind] at h
    | some b =>
      cases h3 : load d (p + 16) 4 with
      | none => simp [h1, h2, h3, Outcome.ofOption, Outcome.bind] at h
      | some c =>
        simp only [h1, h2, h3, Outcome.ofOption, Outcome.bind] at h ⊢
        cases hr : thunk_loop bit64 d rva base c tf 0 with
        | ok r =>
          rw [thunk_loop_mono bit64 d rva base c tf tf' 0 r hle hr]
          rw [hr] at h
          exact h
        | kerror m => simp [hr] at h
        | fault => simp [hr] at h
        | more => simp [hr] at h

/-- The descriptor loop from byte offset `p`, when the descriptors at `p`, `p + 20`,
... have a `NameRVA` that is not zero and a body that returns, as many as `mods` has
members, and the next descriptor has `NameRVA` zero: it returns `mods`. -/
theorem imp_loop_run (bit64 : Bool) (d : List Byte) (rva : Int) (base tf : Nat) :
    ∀ (mods : List impmod_t) (p : Int) (fuel : Nat), mods.length < fuel →
      (∀ j (h : j < mods.length), ∃ n, load d (p + 20 * (j : Int) + 12) 4 = some n ∧ n ≠ 0 ∧
        imp_entry bit64 d rva base tf (p + 20 * (j : Int)) n = .ok (mods.get ⟨j, h⟩)) →
      load d (p + 20 * (mods.length : Int) + 12) 4 = some 0 →
      imp_loop bit64 d rva base tf fuel p = .ok mods := by
  intro mods
  induction mods with
  | nil =>
    intro p fuel hf _ hz
    obtain ⟨f, rfl⟩ : ∃ f, fuel = f + 1 := ⟨fuel - 1, by omega⟩
    simp only [List.length_nil, Nat.cast_zero, mul_zero, add_zero] at hz
    simp [imp_loop, hz, Outcome.ofOption, Outcome.bind]
  | cons m ms ih =>
    intro p fuel hf hlive hz
    obtain ⟨f, rfl⟩ : ∃ f, fuel = f + 1 := ⟨fuel - 1, by simp at hf; omega⟩
    obtain ⟨n, hn, hn0, hm⟩ := hlive 0 (by simp)
    simp only [Nat.cast_zero, mul_zero, add_zero] at hn hm
    have hrest := ih (p + sizeof_idirent_t) f (by simp at hf; omega)
      (by
        intro j h
        obtain ⟨n', h1, h2, h3⟩ := hlive (j + 1) (by simp; omega)
        refine ⟨n', ?_, h2, ?_⟩
        · have he : p + (sizeof_idirent_t : Int) + 20 * (j : Int) + 12
              = p + 20 * ((j + 1 : Nat) : Int) + 12 := by
            simp [sizeof_idirent_t]; ring
          rw [he]
          exact h1
        · have he : p + (sizeof_idirent_t : Int) + 20 * (j : Int)
              = p + 20 * ((j + 1 : Nat) : Int) := by
            simp [sizeof_idirent_t]; ring
          rw [he]
          simpa using h3)
      (by
        have he : p + (sizeof_idirent_t : Int) + 20 * (ms.length : Int) + 12
            = p + 20 * (((m :: ms).length : Nat) : Int) + 12 := by
          simp [sizeof_idirent_t]; ring
        rw [he]
        exact hz)
    simp only [imp_loop, hn, Outcome.ofOption, Outcome.bind, hn0, if_false]
    simp only [List.get_eq_getElem, List.getElem_cons_zero] at hm
    rw [hm]
    simp only [Outcome.bind]
    rw [hrest]

/-- The body of the descriptor loop for a descriptor whose fields and module name can
be read and whose thunk array has `k` entries that are not zero and can be printed
before a zero entry: with more than `k` units of fuel for the thunk loop it returns
the module made of these fields, with the `k` lines of the thunk array. -/
theorem imp_entry_run (bit64 : Bool) (d : List Byte) (rva : Int) (base tf : Nat) (p : Int)
    (n f T k : Nat) (nm : List Byte)
    (h1 : load d p 4 = some f) (h2 : cstr d (n - rva) = some nm)
    (h3 : load d (p + 16) 4 = some T) (hk : k < tf)
    (hsize : k * thunk_width bit64 < 2 ^ 31)
    (hlive : ∀ i, i < k → thunk_at bit64 d rva T i ≠ some 0 ∧
      thunk_line bit64 d rva base T i ≠ none)
    (hzero : thunk_at bit64 d rva T k = some 0) :
    ∃ syms, imp_entry bit64 d rva base tf p n
        = .ok ⟨f, n, nm, T, syms, (List.range (k + 1)).map fun i =>
            toInt32 (T + i * thunk_width bit64) - rva⟩ ∧
      syms.length = k ∧
      ∀ i (h : i < syms.length), thunk_line bit64 d rva base T i = some (syms.get ⟨i, h⟩) := by
  obtain ⟨syms, hrun, hlen, hsyms⟩ := thunk_loop_run bit64 d rva base T k 0 tf hk
    (by simpa using hsize) (by simpa using hlive) (by simpa using hzero)
  refine ⟨syms, ?_, hlen, by simpa using hsyms⟩
  unfold imp_entry
  simp only [h1, h2, h3, Outcome.ofOption, Outcome.bind, hrun]
  simp [List.range_eq_range', thunk_ofs]

/-- The descriptor loop from byte offset `p`, when the `m` descriptors at `p`,
`p + 20`, ... are live, descriptor `j` with `k j` thunks, and the next descriptor has
`NameRVA` zero: with fuel above `m` and thunk fuel above every `k j` it returns `m`
modules, module `j` listing descriptor `j`. -/
theorem imp_loop_data (bit64 : Bool) (d : List Byte) (rva : Int) (base tf : Nat) :
    ∀ (m : Nat) (k : Nat → Nat) (p : Int) (fuel : Nat), m < fuel →
      (∀ j, j < m → k j < tf) →
      (∀ j, j < m → live_descriptor bit64 d rva base (p + 20 * (j : Int)) (k j)) →
      load d (p + 20 * (m : Int) + 12) 4 = some 0 →
      ∃ mods, imp_loop bit64 d rva base tf fuel p = .ok mods ∧ mods.length = m ∧
        ∀ j (h : j < mods.length),
          lists_descriptor bit64 d rva base (p + 20 * (j : Int)) (k j) (mods.get ⟨j, h⟩) := by
  intro m
  induction m with
  | zero =>
    intro k p fuel hf _ _ hz
    obtain ⟨f, rfl⟩ : ∃ f, fuel = f + 1 := ⟨fuel - 1, by omega⟩
    simp only [Nat.cast_zero, mul_zero, add_zero] at hz
    refine ⟨[], ?_, rfl, fun j h => absurd h (Nat.not_lt_zero j)⟩
    simp [imp_loop, hz, Outcome.ofOption, Outcome.bind]
  | succ m ih =>
    intro k p fuel hf hk hlive hz
    obtain ⟨f, rfl⟩ : ∃ f, fuel = f + 1 := ⟨fuel - 1, by omega⟩
    obtain ⟨n, T, hn, hn0, hf0, hc0, hT, hsz, hth, hth0⟩ := hlive 0 (Nat.succ_pos m)
    simp only [Nat.cast_zero, mul_zero, add_zero] at hn hf0 hT
    obtain ⟨fl, hfl⟩ := Option.ne_none_iff_exists'.mp hf0
    obtain ⟨nm, hnm⟩ := Option.ne_none_iff_exists'.mp hc0
    obtain ⟨syms, hrun, hlen, hsyms⟩ := imp_entry_run bit64 d rva base tf p n fl T (k 0) nm
      hfl hnm hT (hk 0 (Nat.succ_pos m)) hsz hth hth0
    obtain ⟨ms, hms, hmlen, hmj⟩ := ih (fun j => k (j + 1)) (p + sizeof_idirent_t) f
      (by omega) (fun j hj => hk (j + 1) (by omega))
      (by
        intro j hj
        have he : p + (sizeof_idirent_t : Int) + 20 * (j : Int)
            = p + 20 * ((j + 1 : Nat) : Int) := by
          simp [sizeof_idirent_t]; ring
        rw [he]
        exact hlive (j + 1) (by omega))
      (by
        have he : p + (sizeof_idirent_t : Int) + 20 * (m : Int) + 12
            = p + 20 * ((m + 1 : Nat) : Int) + 12 := by
          simp [sizeof_idirent_t]; ring
        rw [he]
        exact hz)
    refine ⟨(⟨fl, n, nm, T, syms, (List.range (k 0 + 1)).map fun i =>
      toInt32 (T + i * thunk_width bit64) - rva⟩ : impmod_t) :: ms, ?_, by simp [hmlen], ?_⟩
    · simp only [imp_loop, hn, Outcome.ofOption, Outcome.bind, hn0, if_false]
      rw [hrun]
      simp only [Outcome.bind]
      rw [hms]
    · intro j h
      cases j with
      | zero =>
        simp only [List.get_eq_getElem, List.getElem_cons_zero, Nat.cast_zero, mul_zero,
          add_zero]
        exact ⟨hn, hn0, hfl, hnm, hT, hlen, hsyms, hth0, rfl⟩
      | succ j =>
        have he : p + (sizeof_idirent_t : Int) + 20 * (j : Int)
            = p + 20 * ((j + 1 : Nat) : Int) := by
          simp [sizeof_idirent_t]; ring
        have := hmj j (by simpa using h)
        rw [he] at this
        simpa using this

/-- C8: `impinfo` takes the import descriptors as consecutive records of 20 bytes from
the byte offset of the import directory RVA in the block (the RVA less the RVA of the
section) and stops at the first whose `NameRVA` is zero.  When the first `m`
descriptors are live (a `NameRVA` that is not zero, fields and module name inside the
block, a thunk array of `k j` entries that can be printed before its zero entry) and
the next descriptor has `NameRVA` zero, then `impinfo` returns, with any fuel above
`m` and above every `k j`, and the listing has exactly `m` modules: module `j` is made
from descriptor `j`, its fields, its name and the lines of its own thunk array, in
the order of the descriptors; nothing is listed for the descriptor with `NameRVA`
zero or for what follows it in the block. -/
theorem impinfo_lists_until_terminator (g : g_info_t) (d : List Byte) (m fuel : Nat)
    (k : Nat → Nat) (hfuel : m < fuel) (hk : ∀ j, j < m → k j < fuel)
    (hlive : ∀ j, j < m → live_descriptor g.bit64 d (toInt32 g.imp.RVA) g.base
      ((g.dir.ImportTable.RVA : Int) - (g.imp.RVA : Int) + 20 * (j : Int)) (k j))
    (hterm : load d ((g.dir.ImportTable.RVA : Int) - (g.imp.RVA : Int)
      + 20 * (m : Int) + 12) 4 = some 0) :
    ∃ mods, impinfo g d fuel = .ok mods ∧ mods.length = m ∧
      ∀ j (h : j < mods.length),
        lists_descriptor g.bit64 d (toInt32 g.imp.RVA) g.base
          ((g.dir.ImportTable.RVA : Int) - (g.imp.RVA : Int) + 20 * (j : Int)) (k j)
          (mods.get ⟨j, h⟩) := by
  unfold impinfo
  exact imp_loop_data g.bit64 d (toInt32 g.imp.RVA) g.base fuel m k _ fuel hfuel hk hlive hterm

/-- The first descriptor of `sample_two` is live, with two thunks. -/
theorem sample_two_live_0 :
    live_descriptor sample_two_s.bit64 sample_two_imp
      (toInt32 sample_two_s.imp.RVA) sample_two_s.base
      ((sample_two_s.dir.ImportTable.RVA : Int) - (sample_two_s.imp.RVA : Int)
        + 20 * ((0 : Nat) : Int)) (sample_two_count 0) :=
  ⟨0x1080, 0x1060, by decide!, by decide!, by decide!, by decide!, by decide!,
    by decide!, by decide!, by decide!⟩

/-- The second descriptor of `sample_two` is live, with one thunk. -/
theorem sample_two_live_1 :
    live_descriptor sample_two_s.bit64 sample_two_imp
      (toInt32 sample_two_s.imp.RVA) sample_two_s.base
      ((sample_two_s.dir.ImportTable.RVA : Int) - (sample_two_s.imp.RVA : Int)
        + 20 * ((1 : Nat) : Int)) (sample_two_count 1) :=
  ⟨0x1088, 0x1070, by decide!, by decide!, by decide!, by decide!, by decide!,
    by decide!, by decide!, by decide!⟩

theorem sample_two_count_lt (j : Nat) : sample_two_count j < 3 := by
  unfold sample_two_count
  split <;> omega

/-- The theorem `impinfo_lists_until_terminator` at the import table of `sample_two`:
two descriptors, with two thunks and with one, then the descriptor with `NameRVA`
zero, then the bytes of one more descriptor; the listing has the two modules. -/
theorem impinfo_lists_until_terminator_witness :
    (∃ mods, impinfo sample_two_s sample_two_imp 3 = .ok mods ∧ mods.length = 2 ∧
      ∀ j (h : j < mods.length),
        lists_descriptor sample_two_s.bit64 sample_two_imp (toInt32 sample_two_s.imp.RVA)
          sample_two_s.base
          ((sample_two_s.dir.ImportTable.RVA : Int) - (sample_two_s.imp.RVA : Int)
            + 20 * (j : Int)) (sample_two_count j) (mods.get ⟨j, h⟩)) ∧
    impinfo sample_two_s sample_two_imp 3 = .ok sample_two_mods ∧
    load sample_two_imp (0x10 + 20 * 3 + 12) 4 = some 0x1088 :=
  ⟨impinfo_lists_until_terminator sample_two_s sample_two_imp 2 3 sample_two_count
    (Nat.lt_succ_self 2) (fun j _ => sample_two_count_lt j)
    (fun j hj =>
      match j, hj with
      | 0, _ => sample_two_live_0
      | 1, _ => sample_two_live_1
      | n + 2, h => absurd h (by omega))
    (by decide!),
   by decide!, by decide!⟩

theorem toU64_toInt64 (x : Nat) : toU64 (toInt64 x) = x % 2 ^ 64 := by
  unfold toU64 toInt64
  split_ifs <;> omega

theorem toU64_toInt32_mod (x : Nat) : toU64 (toInt32 x) % 2 ^ 31 = x % 2 ^ 31 := by
  unfold toU64 toInt32
  split_ifs <;> omega

theorem land_low31 (n : Nat) : n &&& 0x7fffffff = n % 2 ^ 31 :=
  Nat.and_pow_two_sub_one_eq_mod n 31

/-- The number that the `else` branch prints: the low 31 bits of the raw entry. -/
theorem thunk_sym_low31 (bit64 : Bool) (raw : Nat) :
    toU64 (thunk_sym bit64 raw) &&& 0x7fffffff = raw % 2 ^ 31 := by
  rw [land_low31]
  cases bit64 with
  | false => exact toU64_toInt32_mod raw
  | true =>
    simp only [thunk_sym, if_true]
    rw [toU64_toInt64]
    omega

/-- The sign of `sym`: positive exactly when the raw entry is not zero and its high
bit is clear. -/
theorem thunk_sym_pos_iff (bit64 : Bool) (raw : Nat) (hraw : raw < 2 ^ (8 * thunk_width bit64)) :
    0 < thunk_sym bit64 raw ↔ raw ≠ 0 ∧ raw < 2 ^ (8 * thunk_width bit64 - 1) := by
  cases bit64 with
  | false =>
    simp only [thunk_width, thunk_sym, toInt32, Bool.false_eq_true, if_false] at hraw ⊢
    norm_num at hraw ⊢
    split_ifs <;> omega
  | true =>
    simp only [thunk_width, thunk_sym, toInt64, if_true] at hraw ⊢
    norm_num at hraw ⊢
    split_ifs <;> omega

theorem thunk_sym_of_high_clear (bit64 : Bool) (raw : Nat)
    (h : raw < 2 ^ (8 * thunk_width bit64 - 1)) : thunk_sym bit64 raw = (raw : Int) := by
  cases bit64 with
  | false =>
    simp only [thunk_width, thunk_sym, toInt32, Bool.false_eq_true, if_false] at h ⊢
    norm_num at h ⊢
    split_ifs <;> omega
  | true =>
    simp only [thunk_width, thunk_sym, toInt64, if_true] at h ⊢
    norm_num at h ⊢
    split_ifs <;> omega

/-- C9 (the code at the failing input): the second thunk of the 64-bit image
`sample64` is 0x8000000100000005; its high bit is set and the raw value with the high
bit cleared is 0x100000005, and the import listing reports the number 5, the value of
`sym & 0x7fffffff`.  And for a section with RVA 0x80001000 the name of the 8-byte
thunk 0x80001060 is not read at byte offset 0x62 of the block, where the string 2
bytes past that RVA is (here `Foo`), but outside the block, because `rva` is an
`int`. -/
theorem ordinal_of_wide_thunk :
    rd sample64 0x228 8 = 0x8000000100000005 ∧
    0x8000000100000005 - 2 ^ 63 = 0x100000005 ∧
    impsym [] 0 0 0 (thunk_sym true 0x8000000100000005) = some (.ordinal 5) ∧
    main ACT_IMPORT sample64 junk_zero 8 =
      .ok [.header (peinfo_out (peinfo_of sample64)),
        .importTable [sample64_mod]] ∧
    sample64_mod.syms = [.name 0x140001070 [0x46, 0x6f, 0x6f], .ordinal 5] ∧
    cstr sample32_imp ((0x80001060 : Int) + 2 - 0x80001000) = some [0x46, 0x6f, 0x6f] ∧
    -toInt32 0x80001000 + thunk_sym true 0x80001060 + 2 = 0x100000062 ∧
    impsym sample32_imp (toInt32 0x80001000) 0 0 (thunk_sym true 0x80001060) = none := by
  decide!

/-- What `impinfo` prints for a thunk: a raw entry that is not zero (`raw`, below 2^32
for a 4-byte thunk and below 2^64 for an 8-byte thunk) is printed as a number exactly when its
high bit is set (bit 31 or bit 63), and the number is then the low 31 bits of the raw
value: the raw value with the high bit cleared for a 4-byte thunk, and for an 8-byte
thunk whose bits 31 to 62 are zero.  Otherwise it is printed by name, and when the RVA
of the section is below 2^31 the name is the string of the block that starts 2 bytes
past the RVA `raw` (byte offset `raw + 2` less the RVA of the section). -/
theorem impsym_classification (bit64 : Bool) (d : List Byte) (secRVA base : Nat) (ofs : Int)
    (raw : Nat) (hraw : raw < 2 ^ (8 * thunk_width bit64)) (h0 : raw ≠ 0) :
    (2 ^ (8 * thunk_width bit64 - 1) ≤ raw →
      impsym d (toInt32 secRVA) base ofs (thunk_sym bit64 raw) = some (.ordinal (raw % 2 ^ 31)) ∧
      (bit64 = false → raw % 2 ^ 31 = raw - 2 ^ 31) ∧
      (bit64 = true → raw - 2 ^ 63 < 2 ^ 31 → raw % 2 ^ 31 = raw - 2 ^ 63)) ∧
    (raw < 2 ^ (8 * thunk_width bit64 - 1) →
      (∀ n, impsym d (toInt32 secRVA) base ofs (thunk_sym bit64 raw) ≠ some (.ordinal n)) ∧
      (secRVA < 2 ^ 31 →
        impsym d (toInt32 secRVA) base ofs (thunk_sym bit64 raw)
          = (cstr d ((raw : Int) + 2 - (secRVA : Int))).map
              (impsym_t.name (toU64 (ofs + base))))) := by
  have hpos := thunk_sym_pos_iff bit64 raw hraw
  constructor
  · intro hhigh
    have hnp : ¬ 0 < thunk_sym bit64 raw := by
      rw [hpos]
      omega
    refine ⟨?_, ?_, ?_⟩
    · simp only [impsym, hnp, if_false, thunk_sym_low31]
    · intro hb
      subst hb
      simp only [thunk_width, Bool.false_eq_true, if_false] at hraw hhigh
      norm_num at hraw hhigh
      omega
    · intro hb hsmall
      subst hb
      simp only [thunk_width, if_true] at hraw hhigh
      norm_num at hraw hhigh
      omega
  · intro hlow
    have hp : 0 < thunk_sym bit64 raw := hpos.mpr ⟨h0, hlow⟩
    have hv := thunk_sym_of_high_clear bit64 raw hlow
    refine ⟨fun n => ?_, fun hsec => ?_⟩
    · simp only [impsym, hp, if_true]
      cases cstr d (-toInt32 secRVA + thunk_sym bit64 raw + 2) <;> simp
    · have hs : toInt32 secRVA = (secRVA : Int) := by
        unfold toInt32
        split_ifs <;> omega
      rw [hv] at hp
      simp only [impsym, hv, hs, hp, if_true]
      congr 2
      ring

/-- The theorem `impsym_classification` at the first thunk of `sample32`: the raw
value 0x1060 is printed by name, and the name is the string `Foo` at byte offset
0x62 of the block. -/
theorem impsym_classification_witness :
    impsym sample32_imp (toInt32 0x1000) 0x400000 0x1040 (thunk_sym false 0x1060)
      = (cstr sample32_imp ((0x1060 : Nat) + 2 - (0x1000 : Nat))).map
          (impsym_t.name (toU64 (0x1040 + (0x400000 : Nat)))) ∧
    cstr sample32_imp 0x62 = some [0x46, 0x6f, 0x6f] :=
  ⟨((impsym_classification false sample32_imp 0x1000 0x400000 0x1040 0x1060 (by decide)
      (by decide)).2 (by decide)).2 (by decide), by decide!⟩

/-! ## The export walk -/

/-- C10: when the export directory record and the module name can be read from the
block and `NumEATEntries` differs from `NumNamePtrs`, `expinfo` returns with the
"unsupported export table" line, no symbol line, and no read from the ordinal, name
pointer or address table. -/
theorem expinfo_unsupported (g : g_info_t) (d : List Byte) (exp : edirent_t) (name : List Byte)
    (hrec : peek d ((g.dir.ExportTable.RVA : Int) - (g.exp.RVA : Int)) sizeof_edirent_t = some exp)
    (hname : cstr d ((exp.NameRVA : Int) - toInt32 g.exp.RVA) = some name)
    (hne : exp.NumEATEntries ≠ exp.NumNamePtrs) :
    expinfo g d = .ok { hdr := exp, name := name, unsupported := true, syms := [], reads := [] } := by
  unfold expinfo
  simp only [hrec, hname, Outcome.ofOption, Outcome.bind, ne_eq, hne, not_false_eq_true, if_true]

/-- The theorem `expinfo_unsupported` at the export directory of `sample_export`, with
`NumEATEntries` 5 and `NumNamePtrs` 3. -/
theorem expinfo_unsupported_witness :
    edirent_t.NumEATEntries ((sample_export_exp.drop 0x80).take 40) = 5 ∧
    edirent_t.NumNamePtrs ((sample_export_exp.drop 0x80).take 40) = 3 ∧
    expinfo sample_export_s sample_export_exp
      = .ok { hdr := (sample_export_exp.drop 0x80).take 40, name := [0x6b, 0x2e, 0x64, 0x6c, 0x6c],
              unsupported := true, syms := [], reads := [] } :=
  ⟨by decide!, by decide!,
    expinfo_unsupported sample_export_s sample_export_exp ((sample_export_exp.drop 0x80).take 40)
      [0x6b, 0x2e, 0x64, 0x6c, 0x6c] (by decide!) (by decide!) (by decide!)⟩

/-! ## The section listing -/

theorem takeWhile_length_le (l : List Byte) (q : Byte → Bool) :
    (l.takeWhile q).length ≤ l.length := by
  induction l with
  | nil => simp
  | cons a l ih =>
    simp only [List.takeWhile]
    split
    · simp only [List.length_cons]
      omega
    · simp

theorem takeWhile_append_drop (l : List Byte) (q : Byte → Bool) :
    l.takeWhile q ++ l.drop (l.takeWhile q).length = l := by
  induction l with
  | nil => simp
  | cons a l ih =>
    simp only [List.takeWhile]
    split
    · simp only [List.length_cons, List.drop_succ_cons, List.cons_append, ih]
    · simp

/-- A string that is followed by a NUL byte reads back as itself. -/
theorem takeWhile_nz_append_zeros (l : List Byte) (k : Nat) (rest : List Byte) (hk : 0 < k) :
    (l.takeWhile (fun b => b ≠ 0) ++ zeros k ++ rest).takeWhile (fun b => b ≠ 0)
      = l.takeWhile (fun b => b ≠ 0) := by
  obtain ⟨k', rfl⟩ : ∃ k', k = k' + 1 := ⟨k - 1, by omega⟩
  induction l with
  | nil => simp [zeros, List.replicate_succ]
  | cons a l ih =>
    by_cases ha : a = 0
    · subst ha
      simp [zeros, List.replicate_succ]
    · simp only [List.takeWhile, ha, ne_eq, not_false_eq_true, decide_True, List.cons_append]
      simp only [ne_eq] at ih
      rw [ih]

/-- C18: the name that `peoinf` prints for a section record is the bytes of the 8-byte
name field that precede its first NUL byte, and all 8 bytes when none is NUL; it is
at most 8 bytes long and it is an initial part of the name field, so it holds no byte
from outside the field. -/
theorem peoinf_name (g : g_info_t) (p : peobj_t) :
    (peoinf g p).name = (p.Name).takeWhile (fun b => b ≠ 0) ∧
    p.Name = p.take 8 ∧
    (peoinf g p).name.length ≤ 8 ∧
    (∃ t, (peoinf g p).name ++ t = p.Name) ∧
    ((∀ b ∈ p.Name, b ≠ 0) → (peoinf g p).name = p.Name) := by
  have hname : (peoinf g p).name = (p.Name).takeWhile (fun b => b ≠ 0) := by
    have h8 : (p.Name).take 8 = p.Name := by
      simp [peobj_t.Name, List.take_take]
    have hz : (zeros 0x10).drop 8 = zeros 8 := by
      simp [zeros]
    simp only [peoinf, strncpy, h8, hz]
    by_cases hk : 0 < 8 - ((p.Name).takeWhile (fun b => b ≠ 0)).length
    · rw [takeWhile_nz_append_zeros _ _ _ hk]
    · have h0 : 8 - ((p.Name).takeWhile (fun b => b ≠ 0)).length = 0 := by omega
      rw [h0]
      have := takeWhile_nz_append_zeros p.Name 8 [] (by norm_num)
      simpa [zeros] using this
  have hlen : (p.Name).length ≤ 8 := by
    simp [peobj_t.Name]
  refine ⟨hname, rfl, ?_, ?_, ?_⟩
  · rw [hname]
    exact le_trans (takeWhile_length_le _ _) hlen
  · rw [hname]
    exact ⟨_, takeWhile_append_drop _ _⟩
  · intro hall
    rw [hname]
    exact List.takeWhile_eq_self_iff.mpr (by simpa using hall)

theorem toU32_add_toInt32 (a b : Nat) (hb : b < 2 ^ 32) :
    toU32 ((a : Int) + toInt32 b) = (a + b) % 2 ^ 32 := by
  unfold toU32 toInt32
  split_ifs <;> omega

/-- The test of `peoinf` and the test of `objscan` agree on every record and every
value of `tmp`. -/
theorem peohit_eq_objhit (tmp : Int) (p : peobj_t) : peohit tmp p = objhit tmp p := by
  unfold peohit objhit
  simp only [toU32_add_toInt32 p.RVA p.VirtualSize (rd_lt _ _ _)]

theorem indet_length (n : Nat) (junk : List Byte) : (indet n junk).length = n := by
  simp [indet, zeros]

theorem scan_peo_congr (g g' : g_info_t) (hf : g'.f = g.f) (h1 : g'.peh = g.peh)
    (h2 : g'.peofs = g.peofs) (peo : peobj_t) : ∀ i, scan_peo g' peo i = scan_peo g peo i := by
  intro i
  induction i with
  | zero => rfl
  | succ i ih => simp only [scan_peo, ih, hf, secofs_congr g g' h1 h2]

theorem peoinf_congr (g g' : g_info_t) (hb : g'.base = g.base) (hd : g'.dir = g.dir)
    (p : peobj_t) : peoinf g' p = peoinf g p := by
  simp only [peoinf, hb, hd]

/-- The loop of `objinfo` prints, for each section in file order, the lines of `peoinf`
for the record it reads. -/
theorem objinfo_loop_eq (g0 : g_info_t) (peo0 : peobj_t) :
    ∀ (n cnt : Nat) (s : g_info_t × peobj_t), s.2 = scan_peo g0 peo0 cnt →
      s.1.f = g0.f → s.1.peh = g0.peh → s.1.peofs = g0.peofs → s.1.dir = g0.dir →
      s.1.base = g0.base →
      (objinfo_loop n cnt s).2
        = (List.range' cnt n).map fun i => peoinf g0 (secrec g0 peo0 i) := by
  intro n
  induction n with
  | zero =>
    intro cnt s _ _ _ _ _ _
    rfl
  | succ n ih =>
    intro cnt s hs hf hpeh hpeofs hdir hbase
    have hrec : (fread s.1.f (secofs s.1 cnt) sizeof_peobj_t s.2).1 = secrec g0 peo0 cnt := by
      rw [hf, secofs_congr g0 s.1 hpeh hpeofs, hs]
      rfl
    simp only [objinfo_loop, List.range'_succ, List.map_cons, hrec]
    congr 1
    · exact peoinf_congr g0 _ hbase hdir _
    · exact ih (cnt + 1) _ rfl hf hpeh hpeofs hdir hbase

/-- The records that two loops over the section table see are the same when the file
holds every record, whatever the local `peo` of each holds on entry. -/
theorem secrec_indep (g : g_info_t) (junk junk' : List Byte) (i : Nat)
    (h : secofs g i + sizeof_peobj_t ≤ g.f.length) :
    secrec g (indet sizeof_peobj_t junk) i = secrec g (indet sizeof_peobj_t junk') i := by
  rw [secrec_eq_file g _ i (indet_length _ _) h, secrec_eq_file g _ i (indet_length _ _) h]

/-- C19: the test that decides the "import table here" and "export table here" lines
of `peoinf` is the test of `objscan`, for every record and every directory RVA.  So in
a run whose file holds every section record, the section listing of `objinfo` marks
section `i` for a directory exactly when `objscan` found its test to hold for section
`i`, and what `objscan` leaves in `imp` (in `exp`) is taken from the last section
that the listing marks for the import (export) directory. -/
theorem listing_marks_match_scan (g : g_info_t) (junkS junkI : List Byte)
    (hfile : ∀ i, i < g.peh.Sections → secofs g i + sizeof_peobj_t ≤ g.f.length) :
    (∀ (tmp : Int) (p : peobj_t), peohit tmp p = objhit tmp p) ∧
    (objinfo (objscan g (indet sizeof_peobj_t junkS)) (indet sizeof_peobj_t junkI)).2
      = (List.range g.peh.Sections).map
          (fun i => peoinf g (secrec g (indet sizeof_peobj_t junkS) i)) ∧
    (∀ i, (peoinf g (secrec g (indet sizeof_peobj_t junkS) i)).importHere
        = objhit (toInt32 g.dir.ImportTable.RVA) (secrec g (indet sizeof_peobj_t junkS) i) ∧
      (peoinf g (secrec g (indet sizeof_peobj_t junkS) i)).exportHere
        = objhit (toInt32 g.dir.ExportTable.RVA) (secrec g (indet sizeof_peobj_t junkS) i)) ∧
    (∀ j, last_hit (fun i => (peoinf g (secrec g (indet sizeof_peobj_t junkS) i)).importHere)
        g.peh.Sections j →
      (objscan g (indet sizeof_peobj_t junkS)).imp
        = ⟨(peoinf g (secrec g (indet sizeof_peobj_t junkS) j)).PhysicalOffset,
           (peoinf g (secrec g (indet sizeof_peobj_t junkS) j)).VirtualSize,
           (peoinf g (secrec g (indet sizeof_peobj_t junkS) j)).RVA⟩) ∧
    (∀ j, last_hit (fun i => (peoinf g (secrec g (indet sizeof_peobj_t junkS) i)).exportHere)
        g.peh.Sections j →
      (objscan g (indet sizeof_peobj_t junkS)).exp
        = ⟨(peoinf g (secrec g (indet sizeof_peobj_t junkS) j)).PhysicalOffset,
           (peoinf g (secrec g (indet sizeof_peobj_t junkS) j)).VirtualSize,
           (peoinf g (secrec g (indet sizeof_peobj_t junkS) j)).RVA⟩) := by
  obtain ⟨hf, hpeh, hpeofs, hdir, _, hbase, _, _, _, _⟩ :=
    objscan_eq g (indet sizeof_peobj_t junkS)
  have hmark : ∀ i, (peoinf g (secrec g (indet sizeof_peobj_t junkS) i)).importHere
        = objhit (toInt32 g.dir.ImportTable.RVA) (secrec g (indet sizeof_peobj_t junkS) i) ∧
      (peoinf g (secrec g (indet sizeof_peobj_t junkS) i)).exportHere
        = objhit (toInt32 g.dir.ExportTable.RVA) (secrec g (indet sizeof_peobj_t junkS) i) :=
    fun i => ⟨peohit_eq_objhit _ _, peohit_eq_objhit _ _⟩
  refine ⟨peohit_eq_objhit, ?_, hmark, ?_, ?_⟩
  · unfold objinfo
    rw [objinfo_loop_eq g (indet sizeof_peobj_t junkI)
      (objscan g (indet sizeof_peobj_t junkS)).peh.Sections 0
      (objscan g (indet sizeof_peobj_t junkS), indet sizeof_peobj_t junkI)
      rfl hf hpeh hpeofs hdir hbase, hpeh, List.range_eq_range']
    apply List.map_congr_left
    intro i hi
    have hi' : i < g.peh.Sections := by
      simp at hi
      exact hi
    rw [secrec_indep g junkI junkS i (hfile i hi')]
  · intro j hj
    exact objscan_imp_of_last_hit g _ j
      (last_hit_congr _ _ _ _ (fun i _ => ((hmark i).1).symm) hj)
  · intro j hj
    exact objscan_exp_of_last_hit g _ j
      (last_hit_congr _ _ _ _ (fun i _ => ((hmark i).2).symm) hj)

/-- The theorem `listing_marks_match_scan` at the image `sample_overlap`: the listing
marks sections 0 and 1 for the import directory, and `imp` is taken from section 1. -/
theorem listing_marks_match_scan_witness :
    ((objinfo (objscan (peinfo_of sample_overlap) (indet sizeof_peobj_t []))
        (indet sizeof_peobj_t [])).2.map fun o => o.importHere) = [true, true, false] ∧
    (objscan (peinfo_of sample_overlap) (indet sizeof_peobj_t [])).imp = ⟨0x1b0, 0x1000, 0x800⟩ := by
  have h := listing_marks_match_scan (peinfo_of sample_overlap) [] [] (by decide!)
  have hn : (peinfo_of sample_overlap).peh.Sections = 3 := by decide!
  refine ⟨?_, ?_⟩
  · rw [h.2.1]
    decide!
  · rw [h.2.2.2.1 1 ⟨by decide!, by decide!, fun k h1 h2 => by
      have hk : k = 2 := by omega
      subst hk
      decide!⟩]
    decide!

/-! ## The header -/

theorem peinfo_dir_length (g0 g : g_info_t) (h : peinfo g0 = .ok g)
    (hl : g0.dir.length = sizeof_dirhead_t) : g.dir.length = sizeof_dirhead_t := by
  unfold peinfo at h
  simp only at h
  split_ifs at h <;> (cases h; exact fread_length _ _ _ _ hl)

/-- C15: when `peinfo` returns on a freshly opened file, `dir` is 128 bytes, 16 pairs
(RVA, size) of 32-bit values: pair `k` is read at file offset `peofs + 120 + 8 * k`
when the 32-bit optional header is used and at `peofs + 136 + 8 * k` when the 64-bit
one is, right after the optional header (72 and 88 bytes after the 48 bytes of the
image header), whatever the file holds elsewhere, `NumberOfRvaAndSizes` included.  The
export directory is pair 0, the import directory is pair 1, and `EntryPointRVA` is the
32-bit value at `peofs + 40`.  File values are taken with bytes past the end of the
file counting as zero. -/
theorem peinfo_directories (file : List Byte) (g : g_info_t)
    (h : peinfo (g_info_init file) = .ok g) :
    g.dir.length = 16 * 8 ∧
    (∀ k, k < 16 → g.dir.entry k =
      ⟨rd file (g.peofs + (if g.bit64 then 136 else 120) + 8 * k) 4,
       rd file (g.peofs + (if g.bit64 then 136 else 120) + 8 * k + 4) 4⟩) ∧
    (sizeof_head1_t + sizeof_head2_32_t = 120 ∧ sizeof_head1_t + sizeof_head2_64_t = 136) ∧
    g.dir.ExportTable = g.dir.entry 0 ∧ g.dir.ImportTable = g.dir.entry 1 ∧
    g.peh.EntryPointRVA = rd file (g.peofs + 40) 4 := by
  obtain ⟨_, _, hpeh, _, _, h32, h64, _, _⟩ := peinfo_init_ok file g h
  refine ⟨peinfo_dir_length _ g h rfl, ?_, ⟨rfl, rfl⟩, rfl, rfl, hpeh 40 4 (by norm_num)⟩
  intro k hk
  cases hb : g.bit64 with
  | false =>
    obtain ⟨_, _, hd⟩ := h32 hb
    simp only [dirhead_t.entry, Bool.false_eq_true, if_false]
    rw [hd (8 * k) 4 (by omega), hd (8 * k + 4) 4 (by omega)]
    simp only [Nat.add_assoc]
  | true =>
    obtain ⟨_, _, hd⟩ := h64 hb
    simp only [dirhead_t.entry, if_true]
    rw [hd (8 * k) 4 (by omega), hd (8 * k + 4) 4 (by omega)]
    simp only [Nat.add_assoc]

/-- The theorem `peinfo_directories` at the 64-bit image `sample64`, whose import
directory pair, (0x1010, 0x28), is at file offset 0x40 + 136 + 8. -/
theorem peinfo_directories_witness :
    peinfo (g_info_init sample64) = .ok (peinfo_of sample64) ∧
    (peinfo_of sample64).bit64 = true ∧
    (peinfo_of sample64).dir.ImportTable = ⟨0x1010, 0x28⟩ ∧
    (peinfo_of sample64).dir.ImportTable
      = ⟨rd sample64 (0x40 + 136 + 8) 4, rd sample64 (0x40 + 136 + 8 + 4) 4⟩ := by
  have h := peinfo_directories sample64 (peinfo_of sample64) (by decide!)
  have hb : (peinfo_of sample64).bit64 = true := by decide!
  have hp : (peinfo_of sample64).peofs = 0x40 := by decide!
  refine ⟨by decide!, hb, by decide!, ?_⟩
  rw [h.2.2.2.2.1, h.2.1 1 (by norm_num), hb, hp]
  rfl

/-! ## Images with an unknown optional header magic -/

/-- C13 (counterexample): for the image of scenario B, whose optional header magic is
0xDEAD, `peinfo` returns, and a run with the option `-i` lists the imports. -/
theorem scenario_b_not_rejected :
    rd scenario_b (0x40 + 24) 2 = 0xDEAD ∧
    peinfo (g_info_init scenario_b) = .ok (peinfo_of scenario_b) ∧
    main ACT_IMPORT scenario_b junk_zero 8 =
      .ok [.header (peinfo_out (peinfo_of scenario_b)), .importTable [scenario_a_mod]] := by
  decide!

/-- C13 (amended): for the image of scenario B, `peinfo` returns with the image kind
"unknown image" and with the header decoded as for a 32-bit image: what it prints
differs from scenario A in the image kind only; and a run with the options `-e -i -o`
scans the sections and reports the export table, the import table and the sections as
it does for scenario A. -/
theorem scenario_b_runs_as_scenario_a :
    (peinfo_of scenario_b).bit64 = false ∧
    (peinfo_out (peinfo_of scenario_a)).image = .PE32 ∧
    peinfo_out (peinfo_of scenario_b)
      = { peinfo_out (peinfo_of scenario_a) with image := .unknown } ∧
    main (ACT_EXPORT ||| ACT_IMPORT ||| ACT_OBJECTS) scenario_a junk_zero 8
      = .ok (.header (peinfo_out (peinfo_of scenario_a)) :: scenario_a_tail) ∧
    main (ACT_EXPORT ||| ACT_IMPORT ||| ACT_OBJECTS) scenario_b junk_zero 8
      = .ok (.header (peinfo_out (peinfo_of scenario_b)) :: scenario_a_tail) := by
  decide!

/-- C14 (counterexample): the optional header magic of the image `sample_rom` is 0x107,
and a run with the option `-i` scans the sections and lists the imports. -/
theorem unknown_magic_lists_imports :
    rd sample_rom (0x40 + 24) 2 = 0x107 ∧
    (peinfo_out (peinfo_of sample_rom)).image = .unknown ∧
    main ACT_IMPORT sample_rom junk_zero 8 =
      .ok [.header (peinfo_out (peinfo_of sample_rom)), .importTable [sample32_mod]] := by
  decide!

theorem main_eq_main_after (act : Nat) (file : List Byte) (g : g_info_t) (junk : junk_t)
    (fuel : Nat) (h : peinfo (g_info_init file) = .ok g) (ha : act &&& ACT_HELP = 0) :
    main act file junk fuel = main_after act g junk fuel := by
  unfold main main_after
  simp only [ha, ne_eq, not_true_eq_false, if_false, h, Outcome.bind]

/-- C14 (amended): when `peinfo` returns on a freshly opened file whose optional header
magic (the 16-bit value at `peofs + 24`) is neither 0x10B nor 0x20B, the image kind
that it prints is "unknown image" and the header is decoded as for a 32-bit image:
`bit64` is 0, `base` is the 32-bit value at `peofs + 52` and the 16 directory pairs are
read at `peofs + 120`; and `main` goes on as for any image: the section scan and the
listings that are asked for are performed from that state. -/
theorem unknown_magic_runs_as_pe32 (file : List Byte) (g : g_info_t)
    (h : peinfo (g_info_init file) = .ok g)
    (h1 : rd file (g.peofs + 24) 2 ≠ 0x10b) (h2 : rd file (g.peofs + 24) 2 ≠ 0x20b) :
    (peinfo_out g).image = .unknown ∧ g.bit64 = false ∧
    g.base = rd file (g.peofs + 52) 4 ∧
    (∀ k, k < 16 → g.dir.entry k =
      ⟨rd file (g.peofs + 120 + 8 * k) 4, rd file (g.peofs + 120 + 8 * k + 4) 4⟩) ∧
    ∀ act junk fuel, act &&& ACT_HELP = 0 →
      main act file junk fuel = main_after act g junk fuel := by
  obtain ⟨_, _, hpeh, _, hb, h32, _, _, _⟩ := peinfo_init_ok file g h
  have hm2 : g.peh.Magic2 = rd file (g.peofs + 24) 2 := hpeh 24 2 (by norm_num)
  have hb' : g.bit64 = false := by
    rw [hb, hm2]
    simp [h2]
  obtain ⟨hf, hbase, hd⟩ := h32 hb'
  refine ⟨?_, hb', ?_, ?_, fun act junk fuel ha => main_eq_main_after act file g junk fuel h ha⟩
  · simp only [peinfo_out, hm2, h1, h2, if_false]
  · rw [hbase]
    exact hf 4 4 (by norm_num)
  · intro k hk
    simp only [dirhead_t.entry]
    rw [hd (8 * k) 4 (by omega), hd (8 * k + 4) 4 (by omega)]
    simp only [Nat.add_assoc]

/-- The theorem `unknown_magic_runs_as_pe32` at the image `sample_rom`. -/
theorem unknown_magic_runs_as_pe32_witness :
    (peinfo_out (peinfo_of sample_rom)).image = .unknown ∧
    (peinfo_of sample_rom).bit64 = false ∧
    (peinfo_of sample_rom).base = rd sample_rom ((peinfo_of sample_rom).peofs + 52) 4 ∧
    (∀ k, k < 16 → (peinfo_of sample_rom).dir.entry k =
      ⟨rd sample_rom ((peinfo_of sample_rom).peofs + 120 + 8 * k) 4,
       rd sample_rom ((peinfo_of sample_rom).peofs + 120 + 8 * k + 4) 4⟩) ∧
    ∀ act junk fuel, act &&& ACT_HELP = 0 →
      main act sample_rom junk fuel = main_after act (peinfo_of sample_rom) junk fuel :=
  unknown_magic_runs_as_pe32 sample_rom (peinfo_of sample_rom) (by decide!) (by decide!)
    (by decide!)

/-! ## The block of a table -/

theorem table_data_length (g : g_info_t) (l : loc_t) (junk : List Byte) :
    (table_data g l junk).length = l.siz :=
  fread_length _ _ _ _ (indet_length _ _)

theorem table_data_full (g : g_info_t) (l : loc_t) (junk : List Byte)
    (h : l.ofs + l.siz ≤ g.f.length) :
    table_data g l junk = (g.f.drop l.ofs).take l.siz :=
  fread_full _ _ _ _ h (le_of_eq (indet_length _ _))

theorem table_data_start (g : g_info_t) (l : loc_t) (junk : List Byte) :
    (table_data g l junk).take ((g.f.drop l.ofs).take l.siz).length
      = (g.f.drop l.ofs).take l.siz := by
  unfold table_data fread
  simp

/-- C17 (counterexample): in the image `sample_physsize` the section that holds the import
directory has the physical size 0x80 and the virtual size 0x100, and the block
that `main` reads for `impinfo` is 0x100 bytes long: the 0x100 bytes of the file from
the file offset 0x1b0 of the section. -/
theorem block_is_not_physical_size :
    (secrec (peinfo_of sample_physsize) (zeros 40) 0).PhysicalSize = 0x80 ∧
    (secrec (peinfo_of sample_physsize) (zeros 40) 0).VirtualSize = 0x100 ∧
    (objscan (peinfo_of sample_physsize) (zeros 40)).imp = ⟨0x1b0, 0x100, 0x1000⟩ ∧
    (table_data (objscan (peinfo_of sample_physsize) (zeros 40))
      (objscan (peinfo_of sample_physsize) (zeros 40)).imp []).length = 0x100 ∧
    table_data (objscan (peinfo_of sample_physsize) (zeros 40))
      (objscan (peinfo_of sample_physsize) (zeros 40)).imp []
      = (sample_physsize.drop 0x1b0).take 0x100 := by
  decide!

/-- C17 (amended): the block that `main` reads for `impinfo`, when section `j` is the
last section that passes the test of `objscan` for the import directory RVA, has the
length `VirtualSize` of that section; it starts with the bytes of the file from the
`PhysicalOffset` of that section, as many as the file holds up to that length, and it
is exactly the `VirtualSize` bytes of the file from `PhysicalOffset` when the file
holds them all.  The same for the block for `expinfo` and the export directory. -/
theorem table_block_is_virtual_size (g : g_info_t) (peo : peobj_t) (junk : junk_t) :
    (∀ j, last_hit (fun i => objhit (toInt32 g.dir.ImportTable.RVA) (secrec g peo i))
        g.peh.Sections j →
      (table_data (objscan g peo) (objscan g peo).imp junk.impdata).length
        = (secrec g peo j).VirtualSize ∧
      (table_data (objscan g peo) (objscan g peo).imp junk.impdata).take
          ((g.f.drop (secrec g peo j).PhysicalOffset).take (secrec g peo j).VirtualSize).length
        = (g.f.drop (secrec g peo j).PhysicalOffset).take (secrec g peo j).VirtualSize ∧
      ((secrec g peo j).PhysicalOffset + (secrec g peo j).VirtualSize ≤ g.f.length →
        table_data (objscan g peo) (objscan g peo).imp junk.impdata
          = (g.f.drop (secrec g peo j).PhysicalOffset).take (secrec g peo j).VirtualSize)) ∧
    (∀ j, last_hit (fun i => objhit (toInt32 g.dir.ExportTable.RVA) (secrec g peo i))
        g.peh.Sections j →
      (table_data (objscan g peo) (objscan g peo).exp junk.expdata).length
        = (secrec g peo j).VirtualSize ∧
      (table_data (objscan g peo) (objscan g peo).exp junk.expdata).take
          ((g.f.drop (secrec g peo j).PhysicalOffset).take (secrec g peo j).VirtualSize).length
        = (g.f.drop (secrec g peo j).PhysicalOffset).take (secrec g peo j).VirtualSize ∧
      ((secrec g peo j).PhysicalOffset + (secrec g peo j).VirtualSize ≤ g.f.length →
        table_data (objscan g peo) (objscan g peo).exp junk.expdata
          = (g.f.drop (secrec g peo j).PhysicalOffset).take (secrec g peo j).VirtualSize)) := by
  obtain ⟨hf, _, _, _, _, _, _, _, _, _⟩ := objscan_eq g peo
  constructor
  · intro j hj
    have hloc := objscan_imp_of_last_hit g peo j hj
    refine ⟨?_, ?_, fun hlen => ?_⟩
    · rw [table_data_length, hloc]
    · have := table_data_start (objscan g peo) (objscan g peo).imp junk.impdata
      rw [hloc, hf] at this
      rw [hloc]
      exact this
    · have := table_data_full (objscan g peo) (objscan g peo).imp junk.impdata
        (by rw [hloc, hf]; exact hlen)
      rw [hloc, hf] at this
      rw [hloc]
      exact this
  · intro j hj
    have hloc := objscan_exp_of_last_hit g peo j hj
    refine ⟨?_, ?_, fun hlen => ?_⟩
    · rw [table_data_length, hloc]
    · have := table_data_start (objscan g peo) (objscan g peo).exp junk.expdata
      rw [hloc, hf] at this
      rw [hloc]
      exact this
    · have := table_data_full (objscan g peo) (objscan g peo).exp junk.expdata
        (by rw [hloc, hf]; exact hlen)
      rw [hloc, hf] at this
      rw [hloc]
      exact this

/-- The theorem `table_block_is_virtual_size` at the image `sample_physsize`. -/
theorem table_block_is_virtual_size_witness :
    (table_data (objscan (peinfo_of sample_physsize) (zeros 40))
      (objscan (peinfo_of sample_physsize) (zeros 40)).imp junk_zero.impdata).length
      = (secrec (peinfo_of sample_physsize) (zeros 40) 0).VirtualSize ∧
    (secrec (peinfo_of sample_physsize) (zeros 40) 0).VirtualSize = 0x100 := by
  have hn : (peinfo_of sample_physsize).peh.Sections = 1 := by decide!
  exact ⟨((table_block_is_virtual_size (peinfo_of sample_physsize) (zeros 40) junk_zero).1 0
    ⟨by decide!, by decide!, fun k h1 h2 => by omega⟩).1, by decide!⟩

/-! ## The place of the first import descriptor -/

theorem rd_append_left (a b : List Byte) (o w : Nat) (h : o + w ≤ a.length) :
    rd (a ++ b) o w = rd a o w := by
  unfold rd
  rw [List.drop_append_of_le_length (by omega), List.take_append_of_le_length (by simp; omega)]

theorem rd_take_drop (file : List Byte) (pos n o w : Nat) (h : o + w ≤ n) :
    rd ((file.drop pos).take n) o w = rd file (pos + o) w := by
  unfold rd
  rw [List.drop_take, List.take_take, List.drop_drop]
  congr 2
  omega

/-- A field of a block that `fread` filled from the file, when the file holds the
bytes of the field. -/
theorem rd_fread_of_le (file : List Byte) (pos n o w : Nat) (buf : List Byte)
    (h1 : o + w ≤ n) (h2 : pos + o + w ≤ file.length) :
    rd (fread file pos n buf).1 o w = rd file (pos + o) w := by
  unfold fread
  simp only
  rw [rd_append_left _ _ _ _ (by simp; omega), rd_take_drop _ _ _ _ _ h1]

theorem load_eq_rd (d : List Byte) (k w : Nat) (h : k + w ≤ d.length) :
    load d (k : Int) w = some (rd d k w) := by
  unfold load peek rd
  have hc : (0 : Int) ≤ (k : Int) ∧ (k : Int) + (w : Int) ≤ (d.length : Int) := by
    constructor <;> omega
  simp only [hc, and_self, if_true, Option.map_some', Int.toNat_ofNat]

/-- C12 (counterexample): in the image `scenario_a_noofs` the section contains the RVA
0x1010 of the import directory and its file offset is 0; the run reports that it
cannot find the table of imports, so no descriptor is decoded at file offset
0 + 0x10. -/
theorem no_descriptor_for_offset_zero :
    (peinfo_of scenario_a_noofs).peh.Sections = 1 ∧
    (peinfo_of scenario_a_noofs).dir.ImportTable.RVA = 0x1010 ∧
    (secrec (peinfo_of scenario_a_noofs) (zeros 40) 0).PhysicalOffset = 0 ∧
    spec_contains (peinfo_of scenario_a_noofs).dir.ImportTable.RVA
      (secrec (peinfo_of scenario_a_noofs) (zeros 40) 0) = true ∧
    objhit (toInt32 (peinfo_of scenario_a_noofs).dir.ImportTable.RVA)
      (secrec (peinfo_of scenario_a_noofs) (zeros 40) 0) = true ∧
    main ACT_IMPORT scenario_a_noofs junk_zero 8 =
      .ok [.header (peinfo_out (peinfo_of scenario_a_noofs)), .cantFindImport] := by
  decide!

/-- C12 (amended): when section `j` is the last section that passes the test of
`objscan` for the RVA of the import directory and its `PhysicalOffset` is not 0, the part
of `main` for the imports walks the block read at that `PhysicalOffset`, and the walk
starts at the byte offset `ImportTable.RVA - RVA` of the block; when the 20 bytes of
that first descriptor lie inside the `VirtualSize` bytes of the block and inside the
file, each of its fields is the value of the file at the offset
`PhysicalOffset + (ImportTable.RVA - RVA)` plus the offset of the field.  For the
image of scenario A that file offset is 0x400 + 0x10, and the run lists exactly one
module, `k.dll`, with the two symbols that the image declares. -/
theorem import_descriptor_location :
    (∀ (g : g_info_t) (peo : peobj_t) (junk : junk_t) (fuel j : Nat),
      last_hit (fun i => objhit (toInt32 g.dir.ImportTable.RVA) (secrec g peo i))
        g.peh.Sections j →
      (secrec g peo j).PhysicalOffset ≠ 0 →
      (secrec g peo j).RVA ≤ g.dir.ImportTable.RVA ∧
      main_import ACT_IMPORT (objscan g peo) junk fuel
        = (impinfo (objscan g peo)
            (table_data (objscan g peo) (objscan g peo).imp junk.impdata) fuel).bind
            (fun ms => .ok [.importTable ms]) ∧
      impinfo (objscan g peo) (table_data (objscan g peo) (objscan g peo).imp junk.impdata) fuel
        = imp_loop g.bit64 (table_data (objscan g peo) (objscan g peo).imp junk.impdata)
            (toInt32 (secrec g peo j).RVA) g.base fuel fuel
            ((g.dir.ImportTable.RVA - (secrec g peo j).RVA : Nat) : Int) ∧
      (g.dir.ImportTable.RVA - (secrec g peo j).RVA + sizeof_idirent_t
          ≤ (secrec g peo j).VirtualSize →
        (secrec g peo j).PhysicalOffset + (g.dir.ImportTable.RVA - (secrec g peo j).RVA)
          + sizeof_idirent_t ≤ g.f.length →
        ∀ o w, o + w ≤ sizeof_idirent_t →
          load (table_data (objscan g peo) (objscan g peo).imp junk.impdata)
              (((g.dir.ImportTable.RVA - (secrec g peo j).RVA : Nat) : Int) + (o : Int)) w
            = some (rd g.f ((secrec g peo j).PhysicalOffset
                + (g.dir.ImportTable.RVA - (secrec g peo j).RVA) + o) w))) ∧
    ((peinfo_of scenario_a).peh.Sections = 1 ∧
      (peinfo_of scenario_a).bit64 = false ∧
      (peinfo_of scenario_a).dir.ImportTable.RVA = 0x1010 ∧
      (secrec (peinfo_of scenario_a) (zeros 40) 0).RVA = 0x1000 ∧
      (secrec (peinfo_of scenario_a) (zeros 40) 0).VirtualSize = 0x1000 ∧
      (secrec (peinfo_of scenario_a) (zeros 40) 0).PhysicalOffset = 0x400 ∧
      0x400 + (0x1010 - 0x1000) = 0x400 + 0x10 ∧
      rd scenario_a (0x400 + 0x10 + 12) 4 = scenario_a_mod.NameRVA ∧
      rd scenario_a (0x400 + 0x10 + 16) 4 = scenario_a_mod.ImpTabRVA ∧
      main ACT_IMPORT scenario_a junk_zero 8 =
        .ok [.header (peinfo_out (peinfo_of scenario_a)), .importTable [scenario_a_mod]]) := by
  refine ⟨?_, by decide!⟩
  intro g peo junk fuel j hj hne
  obtain ⟨hf, _, _, hdir, hbit, hbase, _, _, _, _⟩ := objscan_eq g peo
  have hloc := objscan_imp_of_last_hit g peo j hj
  have hle : (secrec g peo j).RVA ≤ g.dir.ImportTable.RVA :=
    ((objhit_iff _ _ (rd_lt _ _ _)).mp hj.2.1).1
  have hcast : ((g.dir.ImportTable.RVA : Int) - ((secrec g peo j).RVA : Int))
      = ((g.dir.ImportTable.RVA - (secrec g peo j).RVA : Nat) : Int) := by omega
  refine ⟨hle, ?_, ?_, ?_⟩
  · unfold main_import
    have ha : ACT_IMPORT &&& ACT_IMPORT ≠ 0 := by decide
    simp only [ha, ne_eq, not_false_eq_true, if_true, hloc, hne, if_false]
  · unfold impinfo
    simp only [hloc, hdir, hbit, hbase, hcast]
  · intro hblock hfile o w how
    rw [hloc]
    have hlen : (table_data (objscan g peo) ⟨(secrec g peo j).PhysicalOffset,
        (secrec g peo j).VirtualSize, (secrec g peo j).RVA⟩ junk.impdata).length
        = (secrec g peo j).VirtualSize := table_data_length _ _ _
    simp only [sizeof_idirent_t] at hblock hfile how
    have hc : (((g.dir.ImportTable.RVA - (secrec g peo j).RVA : Nat) : Int) + (o : Int))
        = ((g.dir.ImportTable.RVA - (secrec g peo j).RVA + o : Nat) : Int) := by
      push_cast
      rfl
    rw [hc, load_eq_rd _ _ _ (by rw [hlen]; omega)]
    unfold table_data
    rw [hf]
    simp only
    rw [rd_fread_of_le _ _ _ _ _ _ (by omega) (by omega)]
    congr 2
    omega

/-- The theorem `import_descriptor_location` at the image of scenario A: the field
`NameRVA` of the first descriptor, at offset 12, is loaded from file offset
0x400 + 0x10 + 12. -/
theorem import_descriptor_location_witness :
    load (table_data (objscan (peinfo_of scenario_a) (zeros 40))
        (objscan (peinfo_of scenario_a) (zeros 40)).imp junk_zero.impdata)
        ((((peinfo_of scenario_a).dir.ImportTable.RVA
          - (secrec (peinfo_of scenario_a) (zeros 40) 0).RVA : Nat) : Int) + ((12 : Nat) : Int)) 4
      = some (rd (peinfo_of scenario_a).f
          ((secrec (peinfo_of scenario_a) (zeros 40) 0).PhysicalOffset
            + ((peinfo_of scenario_a).dir.ImportTable.RVA
              - (secrec (peinfo_of scenario_a) (zeros 40) 0).RVA) + 12) 4) ∧
    rd (peinfo_of scenario_a).f
      ((secrec (peinfo_of scenario_a) (zeros 40) 0).PhysicalOffset
        + ((peinfo_of scenario_a).dir.ImportTable.RVA
          - (secrec (peinfo_of scenario_a) (zeros 40) 0).RVA) + 12) 4 = 0x1050 := by
  have hn : (peinfo_of scenario_a).peh.Sections = 1 := by decide!
  have h := (import_descriptor_location.1 (peinfo_of scenario_a) (zeros 40) junk_zero 8 0
    ⟨by decide!, by decide!, fun k h1 h2 => by omega⟩ (by decide!)).2.2.2
    (by decide!) (by decide!) 12 4 (by decide)
  exact ⟨h, by decide!⟩

/-! ## The address of an imported symbol -/

/-- In the 64-bit image `sample_high` the section of the import table is at RVA
0x80001000 and the first thunk of the descriptor, at RVA 0x80001070, imports by name.
The run of `-i` does not print a symbol: it ends in a fault at the name of the
module, which it reads 2^32 bytes past its place in the block, because `rva` is an
`int`. -/
theorem high_section_run_faults :
    (peinfo_of sample_high).bit64 = true ∧ (peinfo_of sample_high).base = 0x140000000 ∧
    (objscan (peinfo_of sample_high) (zeros 40)).imp = ⟨0x1b0, 0x100, 0x80001000⟩ ∧
    rd sample_high (0x1b0 + 0x10 + 16) 4 = 0x80001070 ∧
    rd sample_high (0x1b0 + 0x70) 8 = 0x80001060 ∧
    main ACT_IMPORT sample_high junk_zero 8 = .fault := by
  decide!

/-! ## The export symbols -/

/-- A pass of the loop of `expinfo` in terms of its body. -/
theorem exp_loop_succ (d : List Byte) (rva : Int) (base : Nat) (exp : edirent_t) (n i : Nat) :
    exp_loop d rva base exp (n + 1) i =
      if 2 ^ 31 ≤ i then .fault
      else (exp_line d rva base exp i).bind fun l =>
        (exp_loop d rva base exp n (i + 1)).bind fun r => .ok (l.1 :: r.1, l.2 ++ r.2) := by
  simp only [exp_loop, exp_line]
  split_ifs
  · rfl
  · cases load d ((exp.OrdinalTableRVA : Int) - rva + 2 * (i : Int)) 2 with
    | none => rfl
    | some a =>
      simp only [Outcome.ofOption, Outcome.bind]
      cases load d ((exp.NamePtrTableRVA : Int) - rva + 4 * (i : Int)) 4 with
      | none => rfl
      | some b =>
        simp only [Outcome.bind]
        cases load d ((exp.AddressTableRVA : Int) - rva + 4 * toInt16 a) 4 with
        | none => rfl
        | some c =>
          simp only [Outcome.bind]
          cases cstr d (-rva + toInt32 b) with
          | none => rfl
          | some t =>
            simp only [Outcome.bind]
            rfl

/-- The loop of `expinfo`, when it returns, has printed one line for each of its `n`
passes, the line of the body for the indices `i`, `i + 1`, ... in order. -/
theorem exp_loop_inv (d : List Byte) (rva : Int) (base : Nat) (exp : edirent_t) :
    ∀ (n i : Nat) (r : List expsym_t × List Int), exp_loop d rva base exp n i = .ok r →
      r.1.length = n ∧
      ∀ j (h : j < r.1.length), ∃ rs,
        exp_line d rva base exp (i + j) = .ok (r.1.get ⟨j, h⟩, rs) := by
  intro n
  induction n with
  | zero =>
    intro i r h
    simp only [exp_loop, Outcome.ok.injEq] at h
    subst h
    exact ⟨rfl, fun j hj => absurd hj (Nat.not_lt_zero j)⟩
  | succ n ih =>
    intro i r h
    rw [exp_loop_succ] at h
    split_ifs at h with hov
    cases hl : exp_line d rva base exp i with
    | ok l =>
      cases hr : exp_loop d rva base exp n (i + 1) with
      | ok r' =>
        simp only [hl, hr, Outcome.bind, Outcome.ok.injEq] at h
        subst h
        obtain ⟨hlen, hrest⟩ := ih (i + 1) r' hr
        refine ⟨by simp [hlen], fun j hj => ?_⟩
        cases j with
        | zero => exact ⟨l.2, by simp [hl]⟩
        | succ j =>
          obtain ⟨rs, hrs⟩ := hrest j (by simpa using hj)
          refine ⟨rs, ?_⟩
          have he : i + (j + 1) = i + 1 + j := by omega
          rw [he, hrs]
          simp
      | kerror m => simp [hl, hr, Outcome.bind] at h
      | fault => simp [hl, hr, Outcome.bind] at h
      | more => simp [hl, hr, Outcome.bind] at h
    | kerror m => simp [hl, Outcome.bind] at h
    | fault => simp [hl, Outcome.bind] at h
    | more => simp [hl, Outcome.bind] at h

/-- The line of one pass of the loop of `expinfo`: the name is the string at the byte
offset of the RVA that entry `i` of the name pointer table holds (an `int`), and the
address is taken from the entry of the address table whose index is entry `i` of the
ordinal table read as a `short`: the 16-bit value itself when it is below 0x8000, and
that value less 65536 when it is 0x8000 or more.  `OrdinalBase` is not used. -/
theorem exp_line_ok (d : List Byte) (rva : Int) (base : Nat) (exp : edirent_t) (i : Nat)
    (l : expsym_t) (rs : List Int) (h : exp_line d rva base exp i = .ok (l, rs)) :
    ∃ rawOrd rawSym rawOfs,
      load d ((exp.OrdinalTableRVA : Int) - rva + 2 * (i : Int)) 2 = some rawOrd ∧
      load d ((exp.NamePtrTableRVA : Int) - rva + 4 * (i : Int)) 4 = some rawSym ∧
      load d ((exp.AddressTableRVA : Int) - rva + 4 * toInt16 rawOrd) 4 = some rawOfs ∧
      cstr d (-rva + toInt32 rawSym) = some l.name ∧
      l.addr = toU64 (toInt32 rawOfs + base) ∧
      (rawOrd < 0x8000 → toInt16 rawOrd = (rawOrd : Int)) ∧
      (0x8000 ≤ rawOrd → rawOrd < 0x10000 → toInt16 rawOrd = (rawOrd : Int) - 0x10000) := by
  unfold exp_line at h
  cases h1 : load d ((exp.OrdinalTableRVA : Int) - rva + 2 * (i : Int)) 2 with
  | none => simp [h1, Outcome.ofOption, Outcome.bind] at h
  | some a =>
    cases h2 : load d ((exp.NamePtrTableRVA : Int) - rva + 4 * (i : Int)) 4 with
    | none => simp [h1, h2, Outcome.ofOption, Outcome.bind] at h
    | some b =>
      cases h3 : load d ((exp.AddressTableRVA : Int) - rva + 4 * toInt16 a) 4 with
      | none => simp [h1, h2, h3, Outcome.ofOption, Outcome.bind] at h
      | some c =>
        cases h4 : cstr d (-rva + toInt32 b) with
        | none => simp [h1, h2, h3, h4, Outcome.ofOption, Outcome.bind] at h
        | some t =>
          simp only [h1, h2, h3, h4, Outcome.ofOption, Outcome.bind, Outcome.ok.injEq,
            Prod.mk.injEq] at h
          obtain ⟨hl, _⟩ := h
          subst hl
          refine ⟨a, b, c, rfl, rfl, h3, h4, rfl, ?_, ?_⟩
          · intro hlt
            unfold toInt16
            split_ifs <;> omega
          · intro hge hlt
            unfold toInt16
            split_ifs <;> omega

/-- What `expinfo` reports when it returns without the "unsupported export table"
line: the two counts are equal, there are exactly `NumNamePtrs` symbol lines, and line
`j` is the line of pass `j` of the loop. -/
theorem expinfo_entries (g : g_info_t) (d : List Byte) (out : expout_t)
    (h : expinfo g d = .ok out) (hu : out.unsupported = false) :
    out.hdr.NumEATEntries = out.hdr.NumNamePtrs ∧
    out.syms.length = out.hdr.NumNamePtrs ∧
    ∀ j (hj : j < out.syms.length), ∃ rs,
      exp_line d (toInt32 g.exp.RVA) g.base out.hdr j = .ok (out.syms.get ⟨j, hj⟩, rs) := by
  unfold expinfo at h
  cases h1 : peek d ((g.dir.ExportTable.RVA : Int) - (g.exp.RVA : Int)) sizeof_edirent_t with
  | none => simp [h1, Outcome.ofOption, Outcome.bind] at h
  | some e =>
    cases h2 : cstr d ((edirent_t.NameRVA e : Int) - toInt32 g.exp.RVA) with
    | none => simp [h1, h2, Outcome.ofOption, Outcome.bind] at h
    | some nm =>
      simp only [h1, h2, Outcome.ofOption, Outcome.bind] at h
      split_ifs at h with hne
      · simp only [Outcome.ok.injEq] at h
        subst h
        simp at hu
      · cases hr : exp_loop d (toInt32 g.exp.RVA) g.base e (edirent_t.NumEATEntries e) 0 with
        | ok r =>
          simp only [hr, Outcome.bind, Outcome.ok.injEq] at h
          subst h
          obtain ⟨hlen, hlines⟩ := exp_loop_inv d (toInt32 g.exp.RVA) g.base e _ 0 r hr
          have heq : edirent_t.NumEATEntries e = edirent_t.NumNamePtrs e := not_not.mp hne
          refine ⟨heq, by rw [← heq]; exact hlen, fun j hj => ?_⟩
          obtain ⟨rs, hrs⟩ := hlines j hj
          exact ⟨rs, by simpa using hrs⟩
        | kerror m => simp [hr, Outcome.bind] at h
        | fault => simp [hr, Outcome.bind] at h
        | more => simp [hr, Outcome.bind] at h

/-- C11 (the code at the failing input): the export directory of the image
`sample_export2` has two addresses and two names; entry 1 of its ordinal table is
0xFFFF.  `expinfo` reads that entry as a `short`, -1, and takes the address of the
second symbol from the four bytes before the address table (byte offset 0xac of the
block, value 0x1234), not from entry 0xFFFF of the address table (byte offset
0xb0 + 4 * 0xFFFF); the address of the first symbol, with ordinal entry 1, is taken
from entry 1. -/
theorem ordinal_read_as_short :
    sample_export2_s.exp = ⟨0x1b0, 0x100, 0x1000⟩ ∧
    rd sample_export2 (0x1b0 + 0xd0 + 2 * 1) 2 = 0xFFFF ∧
    toInt16 0xFFFF = -1 ∧
    rd sample_export2 (0x1b0 + 0xb0 + 4 * 1) 4 = 0x2010 ∧
    rd sample_export2 (0x1b0 + 0xb0 - 4) 4 = 0x1234 ∧
    expinfo sample_export2_s (table_data sample_export2_s sample_export2_s.exp [])
      = .ok sample_export2_out ∧
    sample_export2_out.syms = [⟨0x402010, [0x66, 0x31]⟩, ⟨0x401234, [0x67]⟩] ∧
    sample_export2_out.reads = [0xd0, 0xc0, 0xb0 + 4 * 1, 0xd0 + 2, 0xc0 + 4, 0xb0 - 4] ∧
    main ACT_EXPORT sample_export2 junk_zero 8 =
      .ok [.header (peinfo_out (peinfo_of sample_export2)), .exportTable sample_export2_out] := by
  decide!

/-- C4 (the code at the failing input): in the image `sample_wrap_last` both section
records contain the import directory RVA 0xFFFFF010, as `RVA <= rva < RVA +
VirtualSize`, and record 1 (`.two`, file offset 0x200, virtual size 0x2000) is the
last of them in file order; record 1 does not pass the test of `objscan`, whose sum
`RVA + VirtualSize` wraps to 0x1000, and `objscan` leaves in `imp` the triple of
record 0, which is not the triple of record 1. -/
theorem objscan_skips_last_containing_section :
    (peinfo_of sample_wrap_last).peh.Sections = 2 ∧
    (peinfo_of sample_wrap_last).dir.ImportTable.RVA = 0xFFFFF010 ∧
    spec_contains 0xFFFFF010 (secrec (peinfo_of sample_wrap_last) (zeros 40) 0) = true ∧
    spec_contains 0xFFFFF010 (secrec (peinfo_of sample_wrap_last) (zeros 40) 1) = true ∧
    (secrec (peinfo_of sample_wrap_last) (zeros 40) 1).PhysicalOffset = 0x200 ∧
    (secrec (peinfo_of sample_wrap_last) (zeros 40) 1).VirtualSize = 0x2000 ∧
    (secrec (peinfo_of sample_wrap_last) (zeros 40) 1).RVA = 0xFFFFF000 ∧
    objhit (toInt32 0xFFFFF010) (secrec (peinfo_of sample_wrap_last) (zeros 40) 0) = true ∧
    objhit (toInt32 0xFFFFF010) (secrec (peinfo_of sample_wrap_last) (zeros 40) 1) = false ∧
    (objscan (peinfo_of sample_wrap_last) (zeros 40)).imp = ⟨0x1b0, 0x100, 0xFFFFF000⟩ ∧
    (objscan (peinfo_of sample_wrap_last) (zeros 40)).imp ≠ ⟨0x200, 0x2000, 0xFFFFF000⟩ := by
  decide!


/-! ## The address of a name symbol -/

end PEInfo
